import Mathlib

/-!
The program `measure_distances.go`.

A shallow embedding of `measure_distances.go`: the centroid extractor
`getCentroid`, the filename identifier parsing of `main`, and the pairwise
distance loop of `main`.

Go strings are modelled as `List Char`.  Every delimiter the program uses
(`' '`, `'\n'`, `'\r'`, `'_'`, `'.'`) is ASCII, so splitting by bytes and
splitting by code points agree on text.  `int` is the 64-bit `int` of the
common Go targets, `float64` and `float32` are IEEE 754 binary64 and binary32
with round-to-nearest-even.  Each operation is rounded on its own, except
where the compiler fuses a product with the sum that consumes it (`Fusion`).
-/

namespace MeasureDistances

/-! ## Strings: `strings.Trim`, `strings.Split`, `strings.FieldsFunc` -/

abbrev Str := List Char

/-- Length of the string in bytes (Go's `len(s)`), from the UTF-8 width of
each code point. -/
def byteLen (s : Str) : Nat := (s.map Char.utf8Size).sum

/-- The pieces of `s` between the characters satisfying `p`; there is always
one piece more than there are separators. -/
def splitP (p : Char → Bool) : Str → List Str
  | [] => [[]]
  | c :: cs =>
    if p c then [] :: splitP p cs
    else
      match splitP p cs with
      | [] => [[c]]
      | t :: ts => (c :: t) :: ts

/-- The call `strings.Split(s, sep)` for a one-character separator: the
substrings between the separators, `Count(s, sep) + 1` of them; the empty
string gives one empty substring. -/
def Split (s : Str) (sep : Char) : List Str := splitP (fun c => c == sep) s

/-- The call `strings.Trim(s, cutset)`: all leading and all trailing code
points contained in `cutset` removed. -/
def Trim (s : Str) (cutset : Str) : Str :=
  ((s.dropWhile (fun c => cutset.contains c)).reverse.dropWhile
    (fun c => cutset.contains c)).reverse

/-- The call `strings.FieldsFunc(s, f)`: `s` split at each run of code
points satisfying `f`; no field is empty. -/
def FieldsFunc (s : Str) (f : Char → Bool) : List Str :=
  (splitP f s).filter (fun t => !t.isEmpty)

/-! ## `strconv.Atoi` -/

/-- The two errors of package `strconv` (`NumError.Err`). -/
inductive NumErr where
  | ErrSyntax
  | ErrRange
  deriving DecidableEq, Repr

/-- Size of `int` in bits (`strconv.IntSize`). -/
def intSize : Nat := 64

def maxUint64 : Nat := 2 ^ 64 - 1

def isDigit (c : Char) : Bool := decide ('0'.toNat ≤ c.toNat) && decide (c.toNat ≤ '9'.toNat)

def digitVal (c : Char) : Nat := c.toNat - '0'.toNat

/-- The digit loop of `strconv.ParseUint(s, 10, bitSize)`, with `n` the value
accumulated so far: a character that is not a decimal digit is a syntax
error, an overflow returns `maxVal` with a range error at once. -/
def parseUintLoop (maxVal : Nat) : Str → Nat → Nat × Option NumErr
  | [], n => (n, none)
  | c :: cs, n =>
    if !isDigit c then (0, some .ErrSyntax)
    else if n ≥ maxUint64 / 10 + 1 then (maxVal, some .ErrRange)
    else
      let n1 := n * 10 + digitVal c
      if n1 > maxUint64 ∨ n1 > maxVal then (maxVal, some .ErrRange)
      else parseUintLoop maxVal cs n1

/-- The call `strconv.ParseUint(s, 10, bitSize)` for `0 < bitSize ≤ 64`. -/
def ParseUint10 (s : Str) (bitSize : Nat) : Nat × Option NumErr :=
  if s = [] then (0, some .ErrSyntax)
  else parseUintLoop (2 ^ bitSize - 1) s 0

/-- The call `strconv.ParseInt(s, 10, 0)`. -/
def ParseInt10 (s : Str) : Int × Option NumErr :=
  match s with
  | [] => (0, some .ErrSyntax)
  | c :: cs =>
    let neg : Bool := c == '-'
    let body : Str := if c == '+' ∨ c == '-' then cs else s
    let (un, err) := ParseUint10 body intSize
    if err = some .ErrSyntax then (0, err)
    else
      let cutoff : Nat := 2 ^ (intSize - 1)
      if !neg ∧ un ≥ cutoff then ((cutoff : Int) - 1, some .ErrRange)
      else if neg ∧ un > cutoff then (-(cutoff : Int), some .ErrRange)
      else (if neg then -(un : Int) else (un : Int), none)

/-- The digit loop of the fast path of `strconv.Atoi`. -/
def atoiFast : Str → Nat → Option Nat
  | [], n => some n
  | c :: cs, n => if isDigit c then atoiFast cs (n * 10 + digitVal c) else none

/-- The call `strconv.Atoi(s)`: value and error.  Strings of 1 to 18 bytes
take the fast path, all others go through `ParseInt(s, 10, 0)`. -/
def Atoi (s : Str) : Int × Option NumErr :=
  if 0 < byteLen s ∧ byteLen s < 19 then
    match s with
    | [] => (0, some .ErrSyntax)
    | c :: cs =>
      let body : Str := if c == '-' ∨ c == '+' then cs else s
      if body = [] then (0, some .ErrSyntax)
      else
        match atoiFast body 0 with
        | none => (0, some .ErrSyntax)
        | some n => (if c == '-' then -(n : Int) else (n : Int), none)
  else ParseInt10 s

/-! ## IEEE 754 binary floating point -/

/-- A binary interchange format: `prec` significand bits and largest
exponent `emax`. -/
structure Format where
  prec : Nat
  emax : Int
  deriving DecidableEq, Repr

/-- The format of `float64`. -/
def binary64 : Format := ⟨53, 1023⟩

/-- The format of `float32`. -/
def binary32 : Format := ⟨24, 127⟩

/-- A floating-point datum: NaN, an infinity, or the finite number
`± m * 2 ^ e`.  Zero is `fin neg 0 0`, so both signed zeros exist. -/
inductive Flt where
  | nan
  | inf (neg : Bool)
  | fin (neg : Bool) (m : Nat) (e : Int)
  deriving DecidableEq, Repr

abbrev F64 := Flt
abbrev F32 := Flt

/-- Exponent of the unit in the last place of the subnormal numbers. -/
def qmin (f : Format) : Int := 2 - f.emax - f.prec

/-- Exponent of the unit in the last place of the largest finite numbers. -/
def qmax (f : Format) : Int := f.emax + 1 - f.prec

/-- The least `j' ≥ j` with `n < 2 ^ 2 ^ j'`; `fuel ≥ n` is enough. -/
def log2Up : Nat → Nat → Nat → Nat
  | 0, _, j => j
  | fuel + 1, n, j => if n < 2 ^ 2 ^ j then j else log2Up fuel n (j + 1)

/-- Binary logarithm by binary digits: with `2 ^ r ≤ n`, the largest
`r + t`, `t < 2 ^ k`, with `2 ^ (r + t) ≤ n`. -/
def log2Bits : Nat → Nat → Nat → Nat
  | 0, _, r => r
  | k + 1, n, r => if 2 ^ (r + 2 ^ k) ≤ n then log2Bits k n (r + 2 ^ k) else log2Bits k n r

/-- For `n > 0`, the integer `k` with `2 ^ k ≤ n < 2 ^ (k + 1)`. -/
def log2 (n : Nat) : Nat := log2Bits (log2Up n n 0) n 0

/-- Integer square root by binary digits: with `r` a multiple of
`2 ^ k` and `r * r ≤ n`, the largest `r + t`, `t < 2 ^ k`, whose square is
at most `n`. -/
def isqrtBits : Nat → Nat → Nat → Nat
  | 0, _, r => r
  | k + 1, n, r => if (r + 2 ^ k) * (r + 2 ^ k) ≤ n then isqrtBits k n (r + 2 ^ k) else isqrtBits k n r

/-- The integer `r` with `r * r ≤ n < (r + 1) * (r + 1)`. -/
def isqrt (n : Nat) : Nat := isqrtBits (log2 n / 2 + 1) n 0

/-- For `n, d > 0`, the integer `k` with `2 ^ k ≤ n / d < 2 ^ (k + 1)`. -/
def ilog2 (n d : Nat) : Int :=
  let c : Int := (log2 n : Int) - (log2 d : Int)
  if 0 ≤ c then (if d * 2 ^ c.toNat ≤ n then c else c - 1)
  else (if d ≤ n * 2 ^ (-c).toNat then c else c - 1)

/-- Numerator of the quotient `n / d / 2 ^ e` written as a fraction of
natural numbers. -/
def scaleNum (n : Nat) (e : Int) : Nat := if e < 0 then n * 2 ^ (-e).toNat else n

/-- Denominator of the quotient `n / d / 2 ^ e` written as a fraction of
natural numbers. -/
def scaleDen (d : Nat) (e : Int) : Nat := if e < 0 then d else d * 2 ^ e.toNat

/-- The integer nearest to `num / den`, the even one of the two when
`num / den` lies halfway between them. -/
def nearestEven (num den : Nat) : Nat :=
  if den < 2 * (num % den) ∨ (den = 2 * (num % den) ∧ (num / den) % 2 = 1) then num / den + 1
  else num / den

/-- The number `± n / d` (with `d > 0`) rounded to format `f`, to nearest,
ties to even: a result beyond the largest finite number is an infinity, a
result below half the least subnormal is a zero of the same sign. -/
def roundQ (f : Format) (neg : Bool) (n d : Nat) : Flt :=
  if n = 0 then .fin neg 0 0
  else
    let e : Int := max (ilog2 n d - ((f.prec : Int) - 1)) (qmin f)
    let m : Nat := nearestEven (scaleNum n e) (scaleDen d e)
    if m = 0 then .fin neg 0 0
    else if m = 2 ^ f.prec then
      (if e + 1 > qmax f then .inf neg else .fin neg (2 ^ (f.prec - 1)) (e + 1))
    else
      (if e > qmax f then .inf neg else .fin neg m e)

/-- The number `± n * 2 ^ e` rounded to format `f`. -/
def roundScaled (f : Format) (neg : Bool) (n : Nat) (e : Int) : Flt :=
  if e < 0 then roundQ f neg n (2 ^ (-e).toNat) else roundQ f neg (n * 2 ^ e.toNat) 1

namespace Flt

/-- Positive zero, the zero value of a Go float variable. -/
def zero : Flt := .fin false 0 0

def neg : Flt → Flt
  | .nan => .nan
  | .inf s => .inf (!s)
  | .fin s m e => .fin (!s) m e

/-- Is the datum an infinity or a NaN. -/
def isNonFinite : Flt → Bool
  | .fin _ _ _ => false
  | _ => true

/-- Conversion between formats (`float32(x)`, `float64(x)`): the value
rounded to the target format. -/
def convert (f : Format) : Flt → Flt
  | .nan => .nan
  | .inf s => .inf s
  | .fin s m e => roundScaled f s m e

/-- Conversion of a non-negative integer (`float64(len(lines))`). -/
def ofNat (f : Format) (n : Nat) : Flt := roundQ f false n 1

/-- The signed integer `± m`. -/
def signed (s : Bool) (m : Nat) : Int := if s then -(m : Int) else (m : Int)

/-- Addition `x + y` in format `f`. -/
def add (f : Format) : Flt → Flt → Flt
  | .nan, _ => .nan
  | _, .nan => .nan
  | .inf s, .inf t => if s = t then .inf s else .nan
  | .inf s, .fin _ _ _ => .inf s
  | .fin _ _ _, .inf t => .inf t
  | .fin s1 m1 e1, .fin s2 m2 e2 =>
    let e : Int := min e1 e2
    let v : Int := signed s1 m1 * 2 ^ (e1 - e).toNat + signed s2 m2 * 2 ^ (e2 - e).toNat
    if v = 0 then .fin (s1 && s2) 0 0
    else roundScaled f (decide (v < 0)) v.natAbs e

/-- Subtraction `x - y` in format `f`. -/
def sub (f : Format) (x y : Flt) : Flt := add f x (neg y)

/-- Multiplication `x * y` in format `f`. -/
def mul (f : Format) : Flt → Flt → Flt
  | .nan, _ => .nan
  | _, .nan => .nan
  | .inf s, .inf t => .inf (s != t)
  | .inf s, .fin t m _ => if m = 0 then .nan else .inf (s != t)
  | .fin s m _, .inf t => if m = 0 then .nan else .inf (s != t)
  | .fin s1 m1 e1, .fin s2 m2 e2 => roundScaled f (s1 != s2) (m1 * m2) (e1 + e2)

/-- Division `x / y` in format `f`. -/
def div (f : Format) : Flt → Flt → Flt
  | .nan, _ => .nan
  | _, .nan => .nan
  | .inf _, .inf _ => .nan
  | .inf s, .fin t _ _ => .inf (s != t)
  | .fin s _ _, .inf t => .fin (s != t) 0 0
  | .fin s1 m1 e1, .fin s2 m2 e2 =>
    if m2 = 0 then (if m1 = 0 then .nan else .inf (s1 != s2))
    else
      let e : Int := e1 - e2
      if e < 0 then roundQ f (s1 != s2) m1 (m2 * 2 ^ (-e).toNat)
      else roundQ f (s1 != s2) (m1 * 2 ^ e.toNat) m2

/-- Fused multiply-add `x * y + z` in format `f`: the exact product plus `z`,
rounded once.  With `x` and `y` finite the product is finite, so an infinite
or NaN `z` is the result; with `x` or `y` not finite the product is an
infinity or a NaN, which no rounding touches. -/
def fma (f : Format) : Flt → Flt → Flt → Flt
  | .fin s1 m1 e1, .fin s2 m2 e2, .fin s3 m3 e3 =>
    let e : Int := min (e1 + e2) e3
    let v : Int :=
      signed (s1 != s2) (m1 * m2) * 2 ^ (e1 + e2 - e).toNat + signed s3 m3 * 2 ^ (e3 - e).toNat
    if v = 0 then .fin ((s1 != s2) && s3) 0 0
    else roundScaled f (decide (v < 0)) v.natAbs e
  | .fin _ _ _, .fin _ _ _, z => z
  | x, y, z => add f (mul f x y) z

/-- Square root (`math.Sqrt`) in format `f`, correctly rounded.  The
significand is scaled to an even exponent and at least `2 * prec + 4` bits;
when the integer root `r` is not exact, `2 * r + 1` at half the unit stands
for the root, which lies strictly between `r` and `r + 1`. -/
def sqrt (f : Format) : Flt → Flt
  | .nan => .nan
  | .inf s => if s then .nan else .inf false
  | .fin s m e =>
    if m = 0 then .fin s 0 0
    else if s then .nan
    else
      let k : Nat := 2 * f.prec + 4 + (if e % 2 = 0 then 0 else 1)
      let m1 : Nat := m * 2 ^ k
      let e1 : Int := e - k
      let r : Nat := isqrt m1
      if r * r = m1 then roundScaled f false r (e1 / 2)
      else roundScaled f false (2 * r + 1) (e1 / 2 - 1)

/-- Is the datum a value of format `f` in canonical form: a NaN, an infinity,
a zero, or `± m * 2 ^ e` with `m` of at most `prec` bits and `e` in range,
`m` having all `prec` bits unless `e` is the least exponent. -/
def valid (f : Format) : Flt → Bool
  | .nan => true
  | .inf _ => true
  | .fin _ m e =>
    (m == 0 && e == 0) ||
      (decide (0 < m) && decide (m < 2 ^ f.prec) && decide (qmin f ≤ e) && decide (e ≤ qmax f) &&
        (decide (2 ^ (f.prec - 1) ≤ m) || e == qmin f))

end Flt

/-! ## `strconv.ParseFloat`

`ParseFloat(s, 64)` accepts the special values and the decimal and
hexadecimal floating-point syntax scanned by `readFloat`; a well-formed
number is converted to the nearest `float64`, ties to even, and a number
that rounds beyond the largest finite `float64` gives `±Inf` with
`ErrRange`.  The scanner below follows `readFloat`; it keeps every digit of
the significand, where the library keeps 19 and falls back to its exact
decimal conversion when digits were cut. -/

/-- The library's `lower`: the ASCII letter in lower case. -/
def lower (c : Char) : Char :=
  if 'A'.toNat ≤ c.toNat ∧ c.toNat ≤ 'Z'.toNat then Char.ofNat (c.toNat + 32) else c

def isHexLetter (c : Char) : Bool :=
  decide ('a'.toNat ≤ (lower c).toNat) && decide ((lower c).toNat ≤ 'f'.toNat)

def hexLetterVal (c : Char) : Nat := (lower c).toNat - 'a'.toNat + 10

/-- The function `special`, with the check of `ParseFloat` that the whole
string was consumed: `inf` and `infinity` with an optional sign, `nan`
without one, in any letter case. -/
def special (s : Str) : Option F64 :=
  match s with
  | [] => none
  | c :: cs =>
    if c = '+' ∨ c = '-' then
      (if cs.map lower = "inf".toList ∨ cs.map lower = "infinity".toList
        then some (.inf (c == '-')) else none)
    else if s.map lower = "inf".toList ∨ s.map lower = "infinity".toList then some (.inf false)
    else if s.map lower = "nan".toList then some .nan
    else none

/-- The function `underscoreOK` after the optional sign: `saw` is the class
of the last character (`'0'` digit, `'_'`, `'!'` other, `'^'` start). -/
def underscoreLoop (hex : Bool) : Str → Char → Bool
  | [], saw => saw != '_'
  | c :: cs, saw =>
    if isDigit c || (hex && isHexLetter c) then underscoreLoop hex cs '0'
    else if c = '_' then (if saw != '0' then false else underscoreLoop hex cs '_')
    else if saw = '_' then false
    else underscoreLoop hex cs '!'

/-- The function `underscoreOK`: underscores only between digits or between
a base prefix and a digit. -/
def underscoreOK (s : Str) : Bool :=
  let s : Str :=
    match s with
    | c :: cs => if c = '-' ∨ c = '+' then cs else s
    | [] => s
  match s with
  | c :: d :: rest =>
    if c = '0' ∧ (lower d = 'b' ∨ lower d = 'o' ∨ lower d = 'x') then
      underscoreLoop (lower d == 'x') rest '0'
    else underscoreLoop false s '^'
  | _ => underscoreLoop false s '^'

/-- State of the significand scan of `readFloat`. -/
structure Mant where
  sawdot : Bool := false
  sawdigits : Bool := false
  underscores : Bool := false
  nd : Nat := 0
  dp : Int := 0
  mantissa : Nat := 0

/-- The significand loop of `readFloat`: scanned state and the input left
at the first character that is not part of the significand. -/
def readMantissa (hex : Bool) : Str → Mant → Mant × Str
  | [], st => (st, [])
  | c :: cs, st =>
    if c = '_' then readMantissa hex cs { st with underscores := true }
    else if c = '.' then
      (if st.sawdot then (st, c :: cs)
       else readMantissa hex cs { st with sawdot := true, dp := st.nd })
    else if isDigit c then
      (if c = '0' ∧ st.nd = 0 then
        readMantissa hex cs { st with sawdigits := true, dp := st.dp - 1 }
       else
        let m : Nat := st.mantissa * (if hex then 16 else 10) + digitVal c
        readMantissa hex cs { st with sawdigits := true, nd := st.nd + 1, mantissa := m })
    else if hex && isHexLetter c then
      let m : Nat := st.mantissa * 16 + hexLetterVal c
      readMantissa hex cs { st with sawdigits := true, nd := st.nd + 1, mantissa := m }
    else (st, c :: cs)

/-- The exponent digit loop of `readFloat`: the exponent stops growing once
it has reached 10000. -/
def readExpDigits : Str → Nat → Bool → Nat × Bool × Str
  | [], e, us => (e, us, [])
  | c :: cs, e, us =>
    if c = '_' then readExpDigits cs e true
    else if isDigit c then readExpDigits cs (if e < 10000 then e * 10 + digitVal c else e) us
    else (e, us, c :: cs)

/-- What `readFloat` returns: sign, base, the digits of the significand as an
integer, the binary or decimal exponent that goes with it, and the input left
unread. -/
structure Scan where
  neg : Bool
  hex : Bool
  mantissa : Nat
  exp : Int
  rest : Str

/-- The function `readFloat`; `none` is its `ok = false`. -/
def readFloat (s : Str) : Option Scan :=
  match s with
  | [] => none
  | c0 :: cs0 =>
    let neg : Bool := c0 == '-'
    let s1 : Str := if c0 = '+' ∨ c0 = '-' then cs0 else s
    let hex : Bool :=
      match s1 with
      | a :: b :: _ :: _ => a == '0' && lower b == 'x'
      | _ => false
    let s2 : Str := if hex then s1.drop 2 else s1
    let (st, s3) := readMantissa hex s2 {}
    if !st.sawdigits then none
    else
      let dp0 : Int := if st.sawdot then st.dp else st.nd
      let dp1 : Int := if hex then dp0 * 4 else dp0
      let ndMant : Int := if hex then (st.nd : Int) * 4 else st.nd
      let expChar : Char := if hex then 'p' else 'e'
      let tail : Option (Int × Bool × Str) :=
        match s3 with
        | c :: cs =>
          if lower c = expChar then
            (match cs with
             | [] => none
             | d :: ds =>
               let esign : Int := if d = '-' then -1 else 1
               let s4 : Str := if d = '+' ∨ d = '-' then ds else cs
               match s4 with
               | [] => none
               | x :: _ =>
                 if !isDigit x then none
                 else
                   let (e, us, s5) := readExpDigits s4 0 st.underscores
                   some (dp1 + (e : Int) * esign, us, s5))
          else if hex then none
          else some (dp1, st.underscores, s3)
        | [] => if hex then none else some (dp1, st.underscores, s3)
      match tail with
      | none => none
      | some (dp, underscores, rest) =>
        if underscores && !underscoreOK (s.take (s.length - rest.length)) then none
        else some ⟨neg, hex, st.mantissa, if st.mantissa = 0 then 0 else dp - ndMant, rest⟩

/-- The call `strconv.ParseFloat(s, 64)`: value and error.  On a syntax
error the value is 0; on a range error it is `±Inf`. -/
def ParseFloat (s : Str) : F64 × Option NumErr :=
  match special s with
  | some v => (v, none)
  | none =>
    match readFloat s with
    | none => (Flt.zero, some .ErrSyntax)
    | some r =>
      if r.rest ≠ [] then (Flt.zero, some .ErrSyntax)
      else
        let v : F64 :=
          if r.hex then roundScaled binary64 r.neg r.mantissa r.exp
          else if r.exp < 0 then roundQ binary64 r.neg r.mantissa (10 ^ (-r.exp).toNat)
          else roundQ binary64 r.neg (r.mantissa * 10 ^ r.exp.toNat) 1
        (v, if v.isNonFinite then some .ErrRange else none)

/-! ## The program -/

/-- The constant `POINTXI`: index of the field holding the x coordinate. -/
def POINTXI : Nat := 2

/-- The three `float32` of the slice `getCentroid` returns, the only value
ever stored in `object.centroid`. -/
structure Centroid where
  c0 : F32
  c1 : F32
  c2 : F32
  deriving DecidableEq, Repr

set_option linter.dupNamespace false in
/-- The struct `object`. -/
structure object where
  label : Int
  object : Int
  centroid : Centroid
  deriving DecidableEq, Repr

/-- The five values of one output line, in the order of the `Sprintf` call. -/
structure Record where
  label1 : Int
  object1 : Int
  label2 : Int
  object2 : Int
  distance : F32
  deriving DecidableEq, Repr

/-- What a `fmt.Print*` call of the program reports. -/
inductive Msg where
  | inputFileMissing (err : Str)
  | unableToParse (field : Str) (err : NumErr)
  | avg (x y z : F64)
  | tokens (name : List Str)
  | readDirError (err : Str)
  deriving DecidableEq, Repr

/-- The observable actions of a run, in order. -/
inductive Event where
  | print (m : Msg)
  | removeOutput
  | openOutput
  | write (r : Record)
  | closeOutput
  deriving DecidableEq, Repr

/-- The ways a run stops before `main` returns: `os.Exit(code)` or a
run-time panic (index out of range, `panic(err)`). -/
inductive Abort where
  | exit (code : Nat)
  | panic
  deriving DecidableEq, Repr

/-- What a call returns: its value, or the way the process stopped in it. -/
inductive Res (α : Type) where
  | ok (v : α)
  | stop (a : Abort)
  deriving DecidableEq, Repr

/-- The running sums `x`, `y`, `z` of `getCentroid`. -/
structure Sums where
  x : F64
  y : F64
  z : F64
  deriving DecidableEq, Repr

/-- One `strconv.ParseFloat(field, 64)` of the loop body with its `if`: the
diagnostic printed on an error, and the value assigned to `val` in any
case. -/
def parseField (field : Str) : List Event × F64 :=
  match ParseFloat field with
  | (val, some err) => ([.print (.unableToParse field err)], val)
  | (val, none) => ([], val)

/-- The body of the line loop of `getCentroid` (lines 30 to 46): `none` is
the index-out-of-range panic of `args[...]`. -/
def addLine (line : Str) (acc : Sums) : List Event × Option Sums :=
  if line = [] then ([], some acc)
  else
    let args := Split line ' '
    match args[POINTXI]? with
    | none => ([], none)
    | some a0 =>
      let (ev0, v0) := parseField a0
      match args[POINTXI + 1]? with
      | none => (ev0, none)
      | some a1 =>
        let (ev1, v1) := parseField a1
        match args[POINTXI + 2]? with
        | none => (ev0 ++ ev1, none)
        | some a2 =>
          let (ev2, v2) := parseField a2
          (ev0 ++ ev1 ++ ev2,
            some ⟨Flt.add binary64 acc.x v0, Flt.add binary64 acc.y v1, Flt.add binary64 acc.z v2⟩)

/-- The line loop of `getCentroid` (lines 29 to 47). -/
def sumLines : List Str → Sums → List Event × Option Sums
  | [], acc => ([], some acc)
  | line :: rest, acc =>
    match addLine line acc with
    | (ev, none) => (ev, none)
    | (ev, some acc1) =>
      let (evs, r) := sumLines rest acc1
      (ev ++ evs, r)

/-- The function `getCentroid`, as a function of what `ioutil.ReadFile`
returned for the file name: the printed diagnostics and either the centroid
or the way the process stopped. -/
def getCentroid (file : Except Str Str) : List Event × Res Centroid :=
  match file with
  | .error err => ([.print (.inputFileMissing err)], .stop (.exit 1))
  | .ok fileContent =>
    let fileContent := Trim fileContent " \n\r".toList
    let lines := Split fileContent '\n'
    match sumLines lines ⟨Flt.zero, Flt.zero, Flt.zero⟩ with
    | (ev, none) => (ev, .stop .panic)
    | (ev, some acc) =>
      let n : F64 := Flt.ofNat binary64 lines.length
      let x := Flt.div binary64 acc.x n
      let y := Flt.div binary64 acc.y n
      let z := Flt.div binary64 acc.z n
      (ev ++ [.print (.avg x y z)],
        .ok ⟨Flt.convert binary32 x, Flt.convert binary32 y, Flt.convert binary32 z⟩)

/-- The delimiter test passed to `strings.FieldsFunc` in `main`. -/
def isNameDelim (c : Char) : Bool := c == '_' || c == '.' || c == ' '

/-- Lines 75 to 80 of `main`: the tokens of the file name, and `label` and
`object` from tokens 1 and 3 with the error of `Atoi` dropped; `none` is the
index-out-of-range panic. -/
def identifiers (fileName : Str) : Option (Int × Int) :=
  let name := FieldsFunc fileName isNameDelim
  match name[1]?, name[3]? with
  | some t1, some t3 => some ((Atoi t1).1, (Atoi t3).1)
  | _, _ => none

/-- How the compiler evaluates the sum `d0 * d0 + d1 * d1` of lines 119 and
120.  The Go specification lets an implementation fuse `x * y + z` into one
operation that rounds once, also across statements: both products are rounded
and then added, or one of the two products enters the sum unrounded. -/
inductive SumFusion where
  | separate
  | firstProduct
  | secondProduct
  deriving DecidableEq, Repr

/-- The floating-point code generated for lines 119 to 121: how the first two
squares are summed, and whether the third square of line 121 is fused with
its sum.  The compilers for arm64, ppc64le, s390x, riscv64 and for amd64 at
`GOAMD64=v3` emit fused multiply-adds, the compiler for amd64 at `GOAMD64=v1`
does not. -/
structure Fusion where
  sum01 : SumFusion
  sum2 : Bool
  deriving DecidableEq, Repr

/-- The distance computation of lines 119 to 122: the differences are taken
in `float32`, their squares are summed in `float32`, each product and sum
rounded on its own or fused as `fz` says, the root is taken in `float64` and
converted back to `float32`. -/
def distance (fz : Fusion) (a b : Centroid) : F32 :=
  let t0 := Flt.sub binary32 a.c0 b.c0
  let t1 := Flt.sub binary32 a.c1 b.c1
  let t2 := Flt.sub binary32 a.c2 b.c2
  let d1 : F32 :=
    match fz.sum01 with
    | .separate => Flt.add binary32 (Flt.mul binary32 t0 t0) (Flt.mul binary32 t1 t1)
    | .firstProduct => Flt.fma binary32 t0 t0 (Flt.mul binary32 t1 t1)
    | .secondProduct => Flt.fma binary32 t1 t1 (Flt.mul binary32 t0 t0)
  let d2 : F32 :=
    if fz.sum2 then Flt.fma binary32 t2 t2 d1 else Flt.add binary32 d1 (Flt.mul binary32 t2 t2)
  Flt.convert binary32 (Flt.sqrt binary64 (Flt.convert binary64 d2))

/-- The body of the inner loop (lines 116 to 124) for the pair `ob1`, `ob2`:
the records handed to `writeToFile`, none or one. -/
def emitPair (fz : Fusion) (ob1 ob2 : object) : List Record :=
  if ob1.object = ob2.object then []
  else [⟨ob1.label, ob1.object, ob2.label, ob2.object, distance fz ob1.centroid ob2.centroid⟩]

/-- The inner loop `for _, ob2 := range objects`. -/
def innerLoop (fz : Fusion) (ob1 : object) : List object → List Record
  | [] => []
  | ob2 :: rest => emitPair fz ob1 ob2 ++ innerLoop fz ob1 rest

/-- The outer loop `for _, ob1 := range objects` over the entries still to
visit, the inner loop running over all of `objects`. -/
def outerLoop (fz : Fusion) (objects : List object) : List object → List Record
  | [] => []
  | ob1 :: rest => innerLoop fz ob1 objects ++ outerLoop fz objects rest

/-- The pairwise loop of `main` (lines 114 to 126): the records handed to
`writeToFile`, in order, when no write fails. -/
def pairLoop (fz : Fusion) (objects : List object) : List Record := outerLoop fz objects objects

/-- The outside world of one run: what `ioutil.ReadDir("/tmp/objects/")`
returns (the entry names), what `ioutil.ReadFile` returns for a path, whether
`os.OpenFile` succeeds on the output file, and which `WriteString` calls
fail, by their position in the run. -/
structure Env where
  readDir : Except Str (List Str)
  readFile : Str → Except Str Str
  openFile : Except Str Unit
  writeFails : Nat → Bool

/-- The file loop of `main` (lines 72 to 88), `objects` being the slice
built so far.  The variable `labels` of the loop is written and never read;
it is left out. -/
def loadObjects (env : Env) : List Str → List object → List Event × Res (List object)
  | [], objects => ([], .ok objects)
  | file :: rest, objects =>
    let ev0 : List Event := [.print (.tokens (FieldsFunc file isNameDelim))]
    match identifiers file with
    | none => (ev0, .stop .panic)
    | some (label, obj) =>
      match getCentroid (env.readFile ("/tmp/objects/".toList ++ file)) with
      | (ev1, .stop a) => (ev0 ++ ev1, .stop a)
      | (ev1, .ok c) =>
        let (ev2, r) := loadObjects env rest (objects ++ [⟨label, obj, c⟩])
        (ev0 ++ ev1 ++ ev2, r)

/-- The calls of `writeToFile`, the `k`-th write of the run first: a failed
`WriteString` panics. -/
def writeAll (fails : Nat → Bool) : List Record → Nat → List Event × Option Abort
  | [], _ => ([], none)
  | r :: rest, k =>
    if fails k then ([], some .panic)
    else
      let (ev, a) := writeAll fails rest (k + 1)
      (.write r :: ev, a)

/-- The function `main`, compiled with the floating-point code `fz`: the
observable actions of the run and how it stopped, `none` when `main` returned
(exit status 0). -/
def main (fz : Fusion) (env : Env) : List Event × Option Abort :=
  let (ev0, files) : List Event × List Str :=
    match env.readDir with
    | .error err => ([.print (.readDirError err)], [])
    | .ok names => ([], names)
  match loadObjects env files [] with
  | (ev1, .stop a) => (ev0 ++ ev1, some a)
  | (ev1, .ok objects) =>
    match env.openFile with
    | .error _ => (ev0 ++ ev1 ++ [.removeOutput], some .panic)
    | .ok _ =>
      let (ev2, a) := writeAll env.writeFails (pairLoop fz objects) 0
      (ev0 ++ ev1 ++ [.removeOutput, .openOutput] ++ ev2 ++ [.closeOutput], a)

/-- The verb `%v` of `fmt` on an `int`: the decimal digits, with a minus
sign when negative. -/
def formatInt (i : Int) : Str :=
  if i < 0 then '-' :: Nat.toDigits 10 i.natAbs else Nat.toDigits 10 i.natAbs

/-- The string `fmt.Sprintf("%v %v %v %v %v\n", ...)` of line 123 for a
record.  The rendering of the `float32` distance by `%v` belongs to package
`fmt` and is a parameter. -/
def formatLine (showFloat : F32 → Str) (r : Record) : Str :=
  formatInt r.label1 ++ ' ' :: formatInt r.object1 ++ ' ' :: formatInt r.label2 ++ ' ' ::
    formatInt r.object2 ++ ' ' :: showFloat r.distance ++ ['\n']

/-- The strings passed to `f.WriteString` in a run, in order. -/
def writtenLines (showFloat : F32 → Str) : List Event → List Str
  | [] => []
  | .write r :: rest => formatLine showFloat r :: writtenLines showFloat rest
  | _ :: rest => writtenLines showFloat rest

/-! ## Vocabulary of the specification -/

/-- The characters `getCentroid` trims from both ends of the content. -/
def cutset : Str := " \n\r".toList

/-- Field `i` of a line split on the single space character (empty when the
line has no such field). -/
def field (line : Str) (i : Nat) : Str := (Split line ' ').getD i []

/-- The value `ParseFloat` returns for field `i` of the line. -/
def fieldValue (line : Str) (i : Nat) : F64 := (ParseFloat (field line i)).1

/-- The error `ParseFloat` returns for field `i` of the line. -/
def fieldError (line : Str) (i : Nat) : Option NumErr := (ParseFloat (field line i)).2

/-- A well-formed point line: at least five single-space-separated fields,
of which the fields at index 2, 3 and 4 parse as numbers. -/
def pointLine (line : Str) : Bool :=
  decide (5 ≤ (Split line ' ').length) && decide (fieldError line 2 = none) &&
    decide (fieldError line 3 = none) && decide (fieldError line 4 = none)

/-- The sum of the values of field `i` over the lines, added up in
`float64` in the order of the lines, starting from 0. -/
def coordSum (lines : List Str) (i : Nat) : F64 :=
  (lines.map (fun l => fieldValue l i)).foldl (Flt.add binary64) Flt.zero

/-- The three coordinate sums of the `lines`, each divided in `float64` by
`n` and converted to `float32`. -/
def sumsOver (lines : List Str) (n : Nat) : Centroid :=
  ⟨Flt.convert binary32 (Flt.div binary64 (coordSum lines 2) (Flt.ofNat binary64 n)),
   Flt.convert binary32 (Flt.div binary64 (coordSum lines 3) (Flt.ofNat binary64 n)),
   Flt.convert binary32 (Flt.div binary64 (coordSum lines 4) (Flt.ofNat binary64 n))⟩

/-- The arithmetic mean of the points of the lines: the coordinate sums
divided by the number of lines. -/
def meanOfPoints (lines : List Str) : Centroid := sumsOver lines lines.length

/-- A decimal integer: an optional sign `+` or `-` followed by one or more
decimal digits. -/
def isDecimalInteger (t : Str) : Bool :=
  match t with
  | [] => false
  | c :: cs =>
    if c = '+' ∨ c = '-' then !cs.isEmpty && cs.all isDigit else t.all isDigit

/-- The number a string of decimal digits denotes. -/
def digitsValue (ds : Str) : Nat := ds.foldl (fun n c => n * 10 + digitVal c) 0

/-- The integer a decimal integer denotes. -/
def decimalValue (t : Str) : Int :=
  match t with
  | [] => 0
  | c :: cs =>
    if c = '-' then -(digitsValue cs : Int)
    else if c = '+' then (digitsValue cs : Int)
    else (digitsValue t : Int)

/-- The tokens of a file name, as `main` computes them. -/
def tokens (fileName : Str) : List Str := FieldsFunc fileName isNameDelim

/-- A sum the line loop can hold: a `float64` value other than negative
zero. -/
def okSum (x : F64) : Bool := x.valid binary64 && decide (x ≠ .fin true 0 0)

/-- All three running sums are `float64` values other than negative zero. -/
def Sums.good (acc : Sums) : Bool := okSum acc.x && okSum acc.y && okSum acc.z

/-- Number of lines of the list that are not empty. -/
def countPoint (lines : List Str) : Nat := (lines.filter (fun l => !l.isEmpty)).length

/-- Number of empty lines of the list. -/
def countBlank (lines : List Str) : Nat := (lines.filter (fun l => l.isEmpty)).length

/-- A whitespace character that separates fields in the words of the
specification: a space or a tab. -/
def isBlank (c : Char) : Bool := c == ' ' || c == '\t'

/-- The whitespace-separated fields of a line: the line split at each run of
spaces and tabs. -/
def wsFields (line : Str) : List Str := FieldsFunc line isBlank

/-- The fields written one after the other, separated by single spaces. -/
def joinFields : List Str → Str
  | [] => []
  | [f] => f
  | f :: g :: rest => f ++ ' ' :: joinFields (g :: rest)

/-- The sum of the values of field `i` over lines given by their fields,
added up in `float64` in the order of the lines, starting from 0. -/
def rowSum (rows : List (List Str)) (i : Nat) : F64 :=
  (rows.map (fun r => (ParseFloat (r.getD i [])).1)).foldl (Flt.add binary64) Flt.zero

/-- The mean of the points of lines given by their fields, the third, fourth
and fifth field of each line taken as its x, y and z: the coordinate sums,
each divided in `float64` by the number of lines and converted to
`float32`. -/
def rowsMean (rows : List (List Str)) : Centroid :=
  ⟨Flt.convert binary32 (Flt.div binary64 (rowSum rows 2) (Flt.ofNat binary64 rows.length)),
   Flt.convert binary32 (Flt.div binary64 (rowSum rows 3) (Flt.ofNat binary64 rows.length)),
   Flt.convert binary32 (Flt.div binary64 (rowSum rows 4) (Flt.ofNat binary64 rows.length))⟩

/-- The records for the pair of indices `(i, j)`: one record when both
entries exist and their object identifiers differ, none otherwise. -/
def recordAt (fz : Fusion) (objects : List object) (i j : Nat) : List Record :=
  match objects[i]?, objects[j]? with
  | some a, some b =>
    if a.object ≠ b.object then
      [⟨a.label, a.object, b.label, b.object, distance fz a.centroid b.centroid⟩]
    else []
  | _, _ => []

/-- The records over all index pairs in row-major order: the outer index
ascending, and for each the inner index ascending. -/
def rowMajor (fz : Fusion) (objects : List object) : List Record :=
  (List.range objects.length).flatMap fun i =>
    (List.range objects.length).flatMap fun j => recordAt fz objects i j

/-- A list of events all of which are diagnostics. -/
def onlyPrints (evs : List Event) : Prop := ∀ e ∈ evs, ∃ m, e = .print m

/-- The code without fused operations, as for amd64 at `GOAMD64=v1`. -/
def unfused : Fusion := ⟨.separate, false⟩

/-- A directory listing of two object files, for the instances. -/
def sampleNames : List Str := ["label_1_object_2.txt".toList, "label_1_object_3.txt".toList]

/-- The contents of the two object files: the single points (0, 0, 0) and
(3, 4, 0). -/
def sampleRead (path : Str) : Except Str Str :=
  if path = "/tmp/objects/label_1_object_2.txt".toList then .ok "a b 0 0 0".toList
  else .ok "a b 3 4 0".toList

/-- The two objects `main` loads from the sample directory. -/
def sampleObjects : List object :=
  [⟨1, 2, ⟨Flt.zero, Flt.zero, Flt.zero⟩⟩,
   ⟨1, 3, ⟨Flt.ofNat binary32 3, Flt.ofNat binary32 4, Flt.zero⟩⟩]

end MeasureDistances


namespace MeasureDistances

/-! ## Rounding: logarithm, validity and exactness -/


theorem log2Up_spec (fuel n j : Nat) (h : n < 2 ^ 2 ^ (j + fuel)) :
    n < 2 ^ 2 ^ (log2Up fuel n j) := by
  induction fuel generalizing j with
  | zero => simpa [log2Up] using h
  | succ k ih =>
    unfold log2Up
    split_ifs with hlt
    · exact hlt
    · exact ih (j + 1) (by rw [show j + 1 + k = j + (k + 1) by omega]; exact h)

theorem log2Bits_spec (k n r : Nat) (hlo : 2 ^ r ≤ n) (hhi : n < 2 ^ (r + 2 ^ k)) :
    2 ^ (log2Bits k n r) ≤ n ∧ n < 2 ^ (log2Bits k n r + 1) := by
  induction k generalizing r with
  | zero => simpa [log2Bits] using ⟨hlo, hhi⟩
  | succ k ih =>
    unfold log2Bits
    split_ifs with h
    · exact ih _ h (by rw [show r + 2 ^ k + 2 ^ k = r + 2 ^ (k + 1) by ring]; exact hhi)
    · exact ih r hlo (by omega)

theorem log2_spec (n : Nat) (hn : 0 < n) : 2 ^ log2 n ≤ n ∧ n < 2 ^ (log2 n + 1) := by
  unfold log2
  apply log2Bits_spec
  · simpa using hn
  · rw [Nat.zero_add]
    apply log2Up_spec
    rw [Nat.zero_add]
    calc n < 2 ^ n := Nat.lt_two_pow n
      _ ≤ 2 ^ 2 ^ n := Nat.pow_le_pow_right (by norm_num) (Nat.lt_two_pow n).le

/-- The power `2 ^ z` as a rational number. -/
theorem cast_two_pow_toNat (z : Int) (hz : 0 ≤ z) : ((2 ^ z.toNat : Nat) : ℚ) = (2 : ℚ) ^ z := by
  push_cast
  rw [← zpow_natCast, Int.toNat_of_nonneg hz]

theorem log2_spec_rat (n : Nat) (hn : 0 < n) :
    (2 : ℚ) ^ (log2 n : Int) ≤ (n : ℚ) ∧ (n : ℚ) < (2 : ℚ) ^ ((log2 n : Int) + 1) := by
  obtain ⟨h1, h2⟩ := log2_spec n hn
  constructor
  · rw [zpow_natCast]; exact_mod_cast h1
  · rw [show ((log2 n : Int) + 1) = ((log2 n + 1 : Nat) : Int) by push_cast; ring, zpow_natCast]
    exact_mod_cast h2

theorem ilog2_eq (n d : Nat) (hd : 0 < d) :
    ilog2 n d =
      if (2 : ℚ) ^ ((log2 n : Int) - (log2 d : Int)) ≤ (n : ℚ) / d
      then (log2 n : Int) - (log2 d : Int) else (log2 n : Int) - (log2 d : Int) - 1 := by
  have hdq : (0 : ℚ) < d := by exact_mod_cast hd
  unfold ilog2
  simp only
  generalize (log2 n : Int) - (log2 d : Int) = c
  have key : (if 0 ≤ c then decide (d * 2 ^ c.toNat ≤ n) else decide (d ≤ n * 2 ^ (-c).toNat)) =
      decide ((2 : ℚ) ^ c ≤ (n : ℚ) / d) := by
    split_ifs with hc
    · rw [decide_eq_decide, le_div_iff₀ hdq, ← cast_two_pow_toNat c hc]
      rw [mul_comm]
      exact_mod_cast Iff.rfl
    · push_neg at hc
      have hc2 : 0 ≤ -c := by omega
      rw [decide_eq_decide, le_div_iff₀ hdq,
        show (2 : ℚ) ^ c = ((2 : ℚ) ^ (-c))⁻¹ by rw [zpow_neg, inv_inv],
        ← cast_two_pow_toNat (-c) hc2, inv_mul_le_iff₀ (by positivity)]
      rw [mul_comm]
      exact_mod_cast Iff.rfl
  by_cases hc : 0 ≤ c
  · simp only [hc, if_true] at key ⊢
    by_cases h1 : d * 2 ^ c.toNat ≤ n
    · have h2 : (2 : ℚ) ^ c ≤ (n : ℚ) / d := by simpa [h1] using key.symm
      simp [h1, h2]
    · have h2 : ¬ (2 : ℚ) ^ c ≤ (n : ℚ) / d := by simpa [h1] using key.symm
      simp [h1, h2]
  · simp only [hc, if_false] at key ⊢
    by_cases h1 : d ≤ n * 2 ^ (-c).toNat
    · have h2 : (2 : ℚ) ^ c ≤ (n : ℚ) / d := by simpa [h1] using key.symm
      simp [h1, h2]
    · have h2 : ¬ (2 : ℚ) ^ c ≤ (n : ℚ) / d := by simpa [h1] using key.symm
      simp [h1, h2]

/-- The specification of `ilog2`: `2 ^ k ≤ n / d < 2 ^ (k + 1)`. -/
theorem ilog2_spec (n d : Nat) (hn : 0 < n) (hd : 0 < d) :
    (2 : ℚ) ^ ilog2 n d ≤ (n : ℚ) / d ∧ (n : ℚ) / d < (2 : ℚ) ^ (ilog2 n d + 1) := by
  have hdq : (0 : ℚ) < d := by exact_mod_cast hd
  obtain ⟨n1, n2⟩ := log2_spec_rat n hn
  obtain ⟨d1, d2⟩ := log2_spec_rat d hd
  have h2 : (2 : ℚ) ≠ 0 := by norm_num
  have hlo : (2 : ℚ) ^ ((log2 n : Int) - (log2 d : Int) - 1) ≤ (n : ℚ) / d := by
    rw [show (log2 n : Int) - (log2 d : Int) - 1 = (log2 n : Int) - ((log2 d : Int) + 1) by ring,
      zpow_sub₀ h2]
    exact div_le_div₀ (by positivity) n1 hdq d2.le
  have hhi : (n : ℚ) / d < (2 : ℚ) ^ ((log2 n : Int) - (log2 d : Int) + 1) := by
    rw [show (log2 n : Int) - (log2 d : Int) + 1 = ((log2 n : Int) + 1) - (log2 d : Int) by ring,
      zpow_sub₀ h2]
    exact div_lt_div₀ n2 d1 (by positivity) (by positivity)
  rw [ilog2_eq n d hd]
  split_ifs with h
  · exact ⟨h, hhi⟩
  · push_neg at h
    refine ⟨hlo, ?_⟩
    rw [show (log2 n : Int) - (log2 d : Int) - 1 + 1 = (log2 n : Int) - (log2 d : Int) by ring]
    exact h


theorem Flt.valid_fin (f : Format) (s : Bool) (m : Nat) (e : Int) :
    Flt.valid f (.fin s m e) = true ↔
      (m = 0 ∧ e = 0) ∨ (0 < m ∧ m < 2 ^ f.prec ∧ qmin f ≤ e ∧ e ≤ qmax f ∧
        (2 ^ (f.prec - 1) ≤ m ∨ e = qmin f)) := by
  simp [Flt.valid, and_assoc]

theorem nearestEven_ge (num den : Nat) : num / den ≤ nearestEven num den := by
  unfold nearestEven
  split_ifs <;> omega

theorem nearestEven_le (num den : Nat) : nearestEven num den ≤ num / den + 1 := by
  unfold nearestEven
  split_ifs <;> omega

theorem nearestEven_exact (m den : Nat) (hden : 0 < den) : nearestEven (m * den) den = m := by
  unfold nearestEven
  have h1 : m * den % den = 0 := Nat.mul_mod_left m den
  have h2 : m * den / den = m := Nat.mul_div_cancel m hden
  rw [h1, h2]
  have h3 : ¬ (den < 2 * 0 ∨ den = 2 * 0 ∧ m % 2 = 1) := by omega
  rw [if_neg h3]

/-- The scaled numerator and denominator of `roundQ`: their quotient is
`n / d / 2 ^ e`. -/
theorem scaled_ratio (n d : Nat) (e : Int) (hd : 0 < d) :
    0 < scaleDen d e ∧
    ((scaleNum n e : ℚ) / (scaleDen d e : ℚ)) = (n : ℚ) / d / (2 : ℚ) ^ e := by
  have hdq : (0 : ℚ) < d := by exact_mod_cast hd
  unfold scaleNum scaleDen
  split_ifs with he
  · refine ⟨hd, ?_⟩
    have he2 : 0 ≤ -e := by omega
    rw [Nat.cast_mul, cast_two_pow_toNat (-e) he2, zpow_neg, div_div,
      mul_comm (d : ℚ), ← div_div, mul_div_assoc, div_eq_mul_inv ((2 : ℚ) ^ e)⁻¹, ]
    have h2 : (2 : ℚ) ^ e ≠ 0 := by positivity
    field_simp
  · push_neg at he
    refine ⟨by positivity, ?_⟩
    rw [Nat.cast_mul, cast_two_pow_toNat e he, div_div]

/-- A bound `x ≤ num / den` on the rational quotient, read on the integer
quotient. -/
theorem le_quot_of_le_ratio (x num den : Nat) (hden : 0 < den)
    (h : (x : ℚ) ≤ (num : ℚ) / den) : x ≤ num / den := by
  have hq : (0 : ℚ) < den := by exact_mod_cast hden
  rw [le_div_iff₀ hq] at h
  rw [Nat.le_div_iff_mul_le hden]
  exact_mod_cast h

theorem quot_lt_of_ratio_lt (x num den : Nat) (hden : 0 < den)
    (h : (num : ℚ) / den < (x : ℚ)) : num / den < x := by
  have hq : (0 : ℚ) < den := by exact_mod_cast hden
  rw [div_lt_iff₀ hq] at h
  rw [Nat.div_lt_iff_lt_mul hden]
  exact_mod_cast h

theorem quot_lt (f : Format) (n d : Nat) (e : Int) (hn : 0 < n) (hd : 0 < d)
    (he : ilog2 n d - ((f.prec : Int) - 1) ≤ e) :
    scaleNum n e / scaleDen d e < 2 ^ f.prec := by
  obtain ⟨hden, hr⟩ := scaled_ratio n d e hd
  apply quot_lt_of_ratio_lt _ _ _ hden
  rw [hr, div_lt_iff₀ (by positivity)]
  push_cast
  rw [← zpow_natCast, ← zpow_add₀ (by norm_num : (2 : ℚ) ≠ 0)]
  exact lt_of_lt_of_le (ilog2_spec n d hn hd).2
    (zpow_le_zpow_right₀ (by norm_num) (by omega))

theorem quot_ge (f : Format) (n d : Nat) (e : Int) (hn : 0 < n) (hd : 0 < d)
    (hp : 1 ≤ f.prec) (he : e ≤ ilog2 n d - ((f.prec : Int) - 1)) :
    2 ^ (f.prec - 1) ≤ scaleNum n e / scaleDen d e := by
  obtain ⟨hden, hr⟩ := scaled_ratio n d e hd
  apply le_quot_of_le_ratio _ _ _ hden
  rw [hr, le_div_iff₀ (by positivity)]
  push_cast
  rw [← zpow_natCast, ← zpow_add₀ (by norm_num : (2 : ℚ) ≠ 0)]
  refine le_trans (zpow_le_zpow_right₀ (by norm_num) ?_) (ilog2_spec n d hn hd).1
  have : ((f.prec - 1 : Nat) : Int) = (f.prec : Int) - 1 := by omega
  omega

theorem quot_pos (n d : Nat) (e : Int) (hd : 0 < d) (h : (2 : ℚ) ^ e ≤ (n : ℚ) / d) :
    1 ≤ scaleNum n e / scaleDen d e := by
  obtain ⟨hden, hr⟩ := scaled_ratio n d e hd
  apply le_quot_of_le_ratio _ _ _ hden
  rw [hr, le_div_iff₀ (by positivity)]
  simpa using h

/-- Every result of `roundQ` is a value of the format. -/
theorem roundQ_valid (f : Format) (hp : 1 ≤ f.prec) (s : Bool) (n d : Nat) (hd : 0 < d) :
    (roundQ f s n d).valid f = true := by
  unfold roundQ
  by_cases hn : n = 0
  · simp [hn, Flt.valid]
  · have hn0 : 0 < n := Nat.pos_of_ne_zero hn
    simp only [hn, if_false]
    have hE1 : ilog2 n d - ((f.prec : Int) - 1) ≤
        max (ilog2 n d - ((f.prec : Int) - 1)) (qmin f) := le_max_left _ _
    have hE2 : qmin f ≤ max (ilog2 n d - ((f.prec : Int) - 1)) (qmin f) := le_max_right _ _
    have hEc : max (ilog2 n d - ((f.prec : Int) - 1)) (qmin f) = qmin f ∨
        max (ilog2 n d - ((f.prec : Int) - 1)) (qmin f) ≤ ilog2 n d - ((f.prec : Int) - 1) := by
      rcases le_total (ilog2 n d - ((f.prec : Int) - 1)) (qmin f) with h | h
      · left; exact max_eq_right h
      · right; rw [max_eq_left h]
    generalize max (ilog2 n d - ((f.prec : Int) - 1)) (qmin f) = E at hE1 hE2 hEc
    have hlt := quot_lt f n d E hn0 hd hE1
    have hge := nearestEven_ge (scaleNum n E) (scaleDen d E)
    have hle := nearestEven_le (scaleNum n E) (scaleDen d E)
    have hnorm : 2 ^ (f.prec - 1) ≤ nearestEven (scaleNum n E) (scaleDen d E) ∨ E = qmin f := by
      rcases hEc with h | h
      · right; exact h
      · left; exact le_trans (quot_ge f n d E hn0 hd hp h) hge
    generalize nearestEven (scaleNum n E) (scaleDen d E) = m at hge hle hnorm
    have hpow : 2 ^ (f.prec - 1) < 2 ^ f.prec := Nat.pow_lt_pow_right (by norm_num) (by omega)
    split_ifs with h0 h1 h2 h3
    · simp [Flt.valid]
    · rfl
    · rw [Flt.valid_fin]
      right
      refine ⟨by positivity, hpow, by omega, by omega, Or.inl (le_refl _)⟩
    · rfl
    · rw [Flt.valid_fin]
      right
      refine ⟨by omega, by omega, hE2, by omega, hnorm⟩

theorem roundScaled_valid (f : Format) (hp : 1 ≤ f.prec) (s : Bool) (n : Nat) (e : Int) :
    (roundScaled f s n e).valid f = true := by
  unfold roundScaled
  split_ifs
  · exact roundQ_valid f hp s _ _ (by positivity)
  · exact roundQ_valid f hp s _ _ (by norm_num)


/-- A number that is a value of the format in canonical form is rounded to
itself. -/
theorem roundQ_exact (f : Format) (s : Bool) (n d m : Nat) (e : Int) (hd : 0 < d)
    (hm : 0 < m) (hmp : m < 2 ^ f.prec) (he1 : qmin f ≤ e) (he2 : e ≤ qmax f)
    (hnorm : 2 ^ (f.prec - 1) ≤ m ∨ e = qmin f)
    (hr : (n : ℚ) / d = (m : ℚ) * (2 : ℚ) ^ e) :
    roundQ f s n d = .fin s m e := by
  have hdq : (0 : ℚ) < d := by exact_mod_cast hd
  have hmq : (0 : ℚ) < m := by exact_mod_cast hm
  have h2 : (2 : ℚ) ≠ 0 := by norm_num
  have hn : n ≠ 0 := by
    intro h0
    rw [h0] at hr
    have : (0 : ℚ) < (m : ℚ) * (2 : ℚ) ^ e := by positivity
    simp at hr
    rcases hr with hr | hr
    · omega
    · exact absurd hr (by positivity)
  obtain ⟨k1, k2⟩ := ilog2_spec n d (Nat.pos_of_ne_zero hn) hd
  rw [hr] at k1 k2
  have hp0 : 1 ≤ f.prec := by
    by_contra hc
    have : f.prec = 0 := by omega
    rw [this] at hmp
    omega
  -- the exponent chosen by `roundQ` is `e`
  have hup : ilog2 n d - ((f.prec : Int) - 1) ≤ e := by
    have h3 : (m : ℚ) * (2 : ℚ) ^ e < (2 : ℚ) ^ ((f.prec : Int) + e) := by
      rw [zpow_add₀ h2, zpow_natCast]
      exact mul_lt_mul_of_pos_right (by exact_mod_cast hmp) (by positivity)
    have h4 := lt_of_le_of_lt k1 h3
    have := (zpow_lt_zpow_iff_right₀ (by norm_num : (1 : ℚ) < 2)).mp h4
    omega
  have hE : max (ilog2 n d - ((f.prec : Int) - 1)) (qmin f) = e := by
    rcases hnorm with h | h
    · have h3 : (2 : ℚ) ^ (((f.prec - 1 : Nat) : Int) + e) ≤ (m : ℚ) * (2 : ℚ) ^ e := by
        rw [zpow_add₀ h2, zpow_natCast]
        exact mul_le_mul_of_nonneg_right (by exact_mod_cast h) (by positivity)
      have h4 := lt_of_le_of_lt h3 k2
      have h5 := (zpow_lt_zpow_iff_right₀ (by norm_num : (1 : ℚ) < 2)).mp h4
      have h6 : ((f.prec - 1 : Nat) : Int) = (f.prec : Int) - 1 := by omega
      have : ilog2 n d - ((f.prec : Int) - 1) = e := by omega
      rw [this]
      exact max_eq_left he1
    · rw [h] at hup ⊢
      exact max_eq_right hup
  unfold roundQ
  simp only [hn, if_false, hE]
  obtain ⟨hden, hrat⟩ := scaled_ratio n d e hd
  have hnum : scaleNum n e = m * scaleDen d e := by
    have hdenq : (0 : ℚ) < scaleDen d e := by exact_mod_cast hden
    rw [hr, mul_div_assoc, div_self (by positivity), mul_one, div_eq_iff (ne_of_gt hdenq)] at hrat
    exact_mod_cast hrat
  rw [hnum, nearestEven_exact m _ hden]
  have h0 : ¬ m = 0 := by omega
  have h1 : ¬ m = 2 ^ f.prec := by omega
  have h3 : ¬ e > qmax f := by omega
  simp only [h0, h1, h3, if_false]

/-- A number of at least the least subnormal is not rounded to zero. -/
theorem roundQ_ne_zero (f : Format) (hp : 1 ≤ f.prec) (s t : Bool) (n d : Nat) (hd : 0 < d)
    (hr : (2 : ℚ) ^ qmin f ≤ (n : ℚ) / d) : roundQ f s n d ≠ .fin t 0 0 := by
  have hn : n ≠ 0 := by
    intro h0
    rw [h0] at hr
    simp at hr
    exact absurd hr (by push_neg; positivity)
  have hn0 : 0 < n := Nat.pos_of_ne_zero hn
  unfold roundQ
  simp only [hn, if_false]
  have hq : 1 ≤ scaleNum n (max (ilog2 n d - ((f.prec : Int) - 1)) (qmin f)) /
      scaleDen d (max (ilog2 n d - ((f.prec : Int) - 1)) (qmin f)) := by
    apply quot_pos _ _ _ hd
    rcases le_total (ilog2 n d - ((f.prec : Int) - 1)) (qmin f) with h | h
    · rw [max_eq_right h]; exact hr
    · rw [max_eq_left h]
      exact le_trans (zpow_le_zpow_right₀ (by norm_num) (by omega)) (ilog2_spec n d hn0 hd).1
  have hge := nearestEven_ge (scaleNum n (max (ilog2 n d - ((f.prec : Int) - 1)) (qmin f)))
    (scaleDen d (max (ilog2 n d - ((f.prec : Int) - 1)) (qmin f)))
  generalize nearestEven (scaleNum n (max (ilog2 n d - ((f.prec : Int) - 1)) (qmin f)))
    (scaleDen d (max (ilog2 n d - ((f.prec : Int) - 1)) (qmin f))) = m at hge
  have hm : m ≠ 0 := by omega
  have hpow : 2 ^ (f.prec - 1) ≠ 0 := by positivity
  split_ifs with h0 <;> first | exact absurd h0 hm | simp [hm, hpow]

/-- What `roundScaled` rounds is the number `n * 2 ^ e`. -/
theorem roundScaled_eq (f : Format) (s : Bool) (n : Nat) (e : Int) :
    ∃ N D : Nat, 0 < D ∧ roundScaled f s n e = roundQ f s N D ∧
      (N : ℚ) / D = (n : ℚ) * (2 : ℚ) ^ e := by
  unfold roundScaled
  split_ifs with he
  · refine ⟨n, 2 ^ (-e).toNat, by positivity, rfl, ?_⟩
    rw [cast_two_pow_toNat (-e) (by omega), zpow_neg, div_eq_mul_inv, inv_inv]
  · refine ⟨n * 2 ^ e.toNat, 1, by norm_num, rfl, ?_⟩
    rw [Nat.cast_mul, cast_two_pow_toNat e (by omega)]
    simp

theorem roundScaled_exact (f : Format) (s : Bool) (n m : Nat) (e e0 : Int)
    (hm : 0 < m) (hmp : m < 2 ^ f.prec) (he1 : qmin f ≤ e0) (he2 : e0 ≤ qmax f)
    (hnorm : 2 ^ (f.prec - 1) ≤ m ∨ e0 = qmin f)
    (hr : (n : ℚ) * (2 : ℚ) ^ e = (m : ℚ) * (2 : ℚ) ^ e0) :
    roundScaled f s n e = .fin s m e0 := by
  obtain ⟨N, D, hD, heq, hrat⟩ := roundScaled_eq f s n e
  rw [heq]
  exact roundQ_exact f s N D m e0 hD hm hmp he1 he2 hnorm (by rw [hrat, hr])

theorem roundScaled_ne_zero (f : Format) (hp : 1 ≤ f.prec) (s t : Bool) (n : Nat) (e : Int)
    (hr : (2 : ℚ) ^ qmin f ≤ (n : ℚ) * (2 : ℚ) ^ e) : roundScaled f s n e ≠ .fin t 0 0 := by
  obtain ⟨N, D, hD, heq, hrat⟩ := roundScaled_eq f s n e
  rw [heq]
  exact roundQ_ne_zero f hp s t N D hD (by rw [hrat]; exact hr)


theorem Flt.add_valid (f : Format) (hp : 1 ≤ f.prec) (a b : Flt) :
    (Flt.add f a b).valid f = true := by
  cases a with
  | nan => cases b <;> rfl
  | inf s =>
    cases b with
    | nan => rfl
    | inf t => simp only [Flt.add]; split_ifs <;> rfl
    | fin t m e => rfl
  | fin s1 m1 e1 =>
    cases b with
    | nan => rfl
    | inf t => rfl
    | fin s2 m2 e2 =>
      simp only [Flt.add]
      split_ifs
      · simp [Flt.valid]
      · exact roundScaled_valid f hp _ _ _

/-- Adding positive zero leaves every value of the format other than
negative zero unchanged. -/
theorem Flt.add_zero_right (f : Format) (x : Flt) (hv : x.valid f = true)
    (hx : x ≠ .fin true 0 0) : Flt.add f x Flt.zero = x := by
  cases x with
  | nan => rfl
  | inf s => rfl
  | fin s m e =>
    rw [Flt.valid_fin] at hv
    rcases hv with ⟨hm, he⟩ | ⟨hm, hmp, he1, he2, hnorm⟩
    · subst hm; subst he
      cases s
      · simp [Flt.add, Flt.zero, Flt.signed]
      · exact absurd rfl hx
    · have hj : 0 ≤ e - min e 0 := by
        have := min_le_left e 0
        omega
      have hpos : (0 : Int) < (m : Int) * 2 ^ (e - min e 0).toNat := by positivity
      have hr : ((m * 2 ^ (e - min e 0).toNat : Nat) : ℚ) * (2 : ℚ) ^ (min e 0) =
          (m : ℚ) * (2 : ℚ) ^ e := by
        rw [Nat.cast_mul, cast_two_pow_toNat _ hj, mul_assoc,
          ← zpow_add₀ (by norm_num : (2 : ℚ) ≠ 0)]
        congr 2
        omega
      cases s
      · simp only [Flt.add, Flt.zero, Flt.signed, Bool.false_eq_true, if_false, Nat.cast_zero,
          zero_mul, add_zero]
        have hv0 : ¬ ((m : Int) * 2 ^ (e - min e 0).toNat = 0) := by omega
        have hlt : ¬ ((m : Int) * 2 ^ (e - min e 0).toNat < 0) := by omega
        simp only [hv0, hlt, decide_False, if_false]
        have hab : ((m : Int) * 2 ^ (e - min e 0).toNat).natAbs = m * 2 ^ (e - min e 0).toNat := by
          rw [Int.natAbs_mul, Int.natAbs_pow]
          simp
        rw [hab]
        exact roundScaled_exact f false _ m _ e hm hmp he1 he2 hnorm hr
      · simp only [Flt.add, Flt.zero, Flt.signed, Bool.false_eq_true, if_false, if_true,
          Nat.cast_zero, zero_mul, add_zero]
        have hv0 : ¬ (-(m : Int) * 2 ^ (e - min e 0).toNat = 0) := by
          rw [neg_mul]; omega
        have hlt : (-(m : Int) * 2 ^ (e - min e 0).toNat < 0) := by
          rw [neg_mul]; omega
        simp only [hv0, hlt, decide_True, if_false]
        have hab : (-(m : Int) * 2 ^ (e - min e 0).toNat).natAbs = m * 2 ^ (e - min e 0).toNat := by
          rw [Int.natAbs_mul, Int.natAbs_pow]
          simp
        rw [hab]
        exact roundScaled_exact f true _ m _ e hm hmp he1 he2 hnorm hr

/-- A sum is negative zero only when the first operand is. -/
theorem Flt.add_ne_negZero (f : Format) (hp : 1 ≤ f.prec) (hq : qmin f ≤ 0) (a b : Flt)
    (ha : a.valid f = true) (hb : b.valid f = true) (hx : a ≠ .fin true 0 0) :
    Flt.add f a b ≠ .fin true 0 0 := by
  cases a with
  | nan => cases b <;> simp [Flt.add]
  | inf s =>
    cases b with
    | nan => simp [Flt.add]
    | inf t => simp only [Flt.add]; split_ifs <;> simp
    | fin t m e => simp [Flt.add]
  | fin s1 m1 e1 =>
    cases b with
    | nan => simp [Flt.add]
    | inf t => simp [Flt.add]
    | fin s2 m2 e2 =>
      rw [Flt.valid_fin] at ha hb
      have h1 : qmin f ≤ e1 := by
        rcases ha with ⟨_, he⟩ | ⟨_, _, he, _⟩
        · omega
        · exact he
      have h2 : qmin f ≤ e2 := by
        rcases hb with ⟨_, he⟩ | ⟨_, _, he, _⟩
        · omega
        · exact he
      simp only [Flt.add]
      split_ifs with hv
      · intro heq
        simp only [Flt.fin.injEq, Bool.and_eq_true, and_true] at heq
        obtain ⟨hs1, hs2⟩ := heq
        subst hs1; subst hs2
        simp only [Flt.signed, if_true] at hv
        have hm1 : m1 = 0 := by
          by_contra hc
          have hpos1 : (0 : Int) < (m1 : Int) * 2 ^ (e1 - min e1 e2).toNat := by
            have : 0 < m1 := Nat.pos_of_ne_zero hc
            positivity
          have hpos2 : (0 : Int) ≤ (m2 : Int) * 2 ^ (e2 - min e1 e2).toNat := by positivity
          rw [neg_mul, neg_mul] at hv
          omega
        rcases ha with ⟨_, he⟩ | ⟨hm, _⟩
        · subst hm1; subst he
          exact hx rfl
        · omega
      · apply roundScaled_ne_zero f hp
        have habs : (1 : ℚ) ≤ ((Flt.signed s1 m1 * 2 ^ (e1 - min e1 e2).toNat +
            Flt.signed s2 m2 * 2 ^ (e2 - min e1 e2).toNat).natAbs : ℚ) := by
          have : 1 ≤ (Flt.signed s1 m1 * 2 ^ (e1 - min e1 e2).toNat +
            Flt.signed s2 m2 * 2 ^ (e2 - min e1 e2).toNat).natAbs := by
            rw [Nat.one_le_iff_ne_zero]
            exact Int.natAbs_ne_zero.mpr hv
          exact_mod_cast this
        have hmin : qmin f ≤ min e1 e2 := le_min h1 h2
        calc (2 : ℚ) ^ qmin f ≤ (2 : ℚ) ^ min e1 e2 := zpow_le_zpow_right₀ (by norm_num) hmin
          _ = 1 * (2 : ℚ) ^ min e1 e2 := (one_mul _).symm
          _ ≤ _ := mul_le_mul_of_nonneg_right habs (by positivity)

theorem special_valid (f : Format) (s : Str) (v : F64) (h : special s = some v) :
    v.valid f = true := by
  unfold special at h
  split at h
  · simp at h
  · split_ifs at h <;> simp at h <;> subst h <;> rfl

theorem ParseFloat_valid (s : Str) : (ParseFloat s).1.valid binary64 = true := by
  unfold ParseFloat
  cases hs : special s with
  | some v => exact special_valid binary64 s v hs
  | none =>
    simp only
    cases hr : readFloat s with
    | none => rfl
    | some r =>
      simp only
      by_cases hrest : r.rest ≠ []
      · rw [if_pos hrest]; rfl
      · rw [if_neg hrest]
        dsimp only
        split_ifs
        · exact roundScaled_valid binary64 (by decide) _ _ _
        · exact roundQ_valid binary64 (by decide) _ _ _ (by positivity)
        · exact roundQ_valid binary64 (by decide) _ _ _ (by norm_num)


/-! ## Lemmas on the line loop -/

theorem parseField_value (f : Str) : (parseField f).2 = (ParseFloat f).1 := by
  unfold parseField
  split <;> simp_all

theorem addLine_nil (acc : Sums) : addLine [] acc = ([], some acc) := by
  simp [addLine]

theorem addLine_value (line : Str) (acc : Sums) (hne : line ≠ [])
    (hlen : 5 ≤ (Split line ' ').length) :
    (addLine line acc).2 =
      some ⟨Flt.add binary64 acc.x (fieldValue line 2), Flt.add binary64 acc.y (fieldValue line 3),
        Flt.add binary64 acc.z (fieldValue line 4)⟩ := by
  unfold fieldValue field
  match hargs : Split line ' ' with
  | [] => simp [hargs] at hlen
  | [_] => simp [hargs] at hlen
  | [_, _] => simp [hargs] at hlen
  | [_, _, _] => simp [hargs] at hlen
  | [_, _, _, _] => simp [hargs] at hlen
  | a0 :: a1 :: a2 :: a3 :: a4 :: rest =>
    simp [addLine, hne, hargs, POINTXI, parseField_value]

/-- The sums after the line loop: each coordinate is the left-to-right
`float64` sum of its own field over the non-empty lines. -/
theorem sumLines_value (lines : List Str) (acc : Sums)
    (h : ∀ l ∈ lines, l ≠ [] → 5 ≤ (Split l ' ').length) :
    (sumLines lines acc).2 =
      some ⟨((lines.filter (fun l => !l.isEmpty)).map (fun l => fieldValue l 2)).foldl
              (Flt.add binary64) acc.x,
            ((lines.filter (fun l => !l.isEmpty)).map (fun l => fieldValue l 3)).foldl
              (Flt.add binary64) acc.y,
            ((lines.filter (fun l => !l.isEmpty)).map (fun l => fieldValue l 4)).foldl
              (Flt.add binary64) acc.z⟩ := by
  induction lines generalizing acc with
  | nil => simp [sumLines]
  | cons l rest ih =>
    have hrest : ∀ l ∈ rest, l ≠ [] → 5 ≤ (Split l ' ').length :=
      fun l hl => h l (List.mem_cons_of_mem _ hl)
    by_cases hl : l = []
    · subst hl
      simp [sumLines, addLine_nil, ih acc hrest]
    · have hv := addLine_value l acc hl (h l (List.mem_cons_self _ _) hl)
      unfold sumLines
      match hal : addLine l acc with
      | (ev, none) => rw [hal] at hv; simp at hv
      | (ev, some acc1) =>
        rw [hal] at hv
        simp only [Option.some.injEq] at hv
        simp only [ih acc1 hrest]
        subst hv
        simp [hl]

/-- The value of `getCentroid` on a content whose non-empty lines all have
five fields: the sums over the non-empty lines, divided by the number of
lines of the split result. -/
theorem getCentroid_value (content : Str)
    (h : ∀ l ∈ Split (Trim content cutset) '\n', l ≠ [] → 5 ≤ (Split l ' ').length) :
    (getCentroid (.ok content)).2 =
      .ok (sumsOver ((Split (Trim content cutset) '\n').filter (fun l => !l.isEmpty))
            (Split (Trim content cutset) '\n').length) := by
  have hs := sumLines_value (Split (Trim content cutset) '\n') ⟨Flt.zero, Flt.zero, Flt.zero⟩ h
  unfold getCentroid
  simp only [cutset] at hs ⊢
  match hsl : sumLines (Split (Trim content " \n\r".toList) '\n') ⟨Flt.zero, Flt.zero, Flt.zero⟩ with
  | (ev, none) => rw [hsl] at hs; simp at hs
  | (ev, some acc) =>
    rw [hsl] at hs
    simp only [Option.some.injEq] at hs
    subst hs
    simp [sumsOver, coordSum]

theorem pointLine_ne_nil {l : Str} (h : pointLine l = true) : l ≠ [] := by
  intro hl
  subst hl
  simp [pointLine, Split, splitP] at h

theorem pointLine_length {l : Str} (h : pointLine l = true) : 5 ≤ (Split l ' ').length := by
  simp [pointLine] at h
  exact h.1.1.1


/-! ## Trimming -/

theorem Trim_eq_nil (s : Str) (h : ∀ c ∈ s, c ∈ cutset) : Trim s cutset = [] := by
  have h1 : s.dropWhile (fun c => cutset.contains c) = [] := by
    rw [List.dropWhile_eq_nil_iff]
    intro c hc
    simpa using h c hc
  unfold Trim
  rw [h1]
  rfl

theorem dropWhile_append_of_exists (p : Char → Bool) (s t : Str)
    (h : ∃ x ∈ s, ¬ p x = true) : (s ++ t).dropWhile p = s.dropWhile p ++ t := by
  induction s with
  | nil => simp at h
  | cons a s ih =>
    by_cases ha : p a = true
    · have h2 : ∃ x ∈ s, ¬ p x = true := by
        obtain ⟨x, hx, hx2⟩ := h
        rcases List.mem_cons.mp hx with hx | hx
        · subst hx; exact absurd ha hx2
        · exact ⟨x, hx, hx2⟩
      simp [List.dropWhile_cons, ha, ih h2]
    · simp [List.dropWhile_cons, ha]

theorem Trim_append_cut (s : Str) (c : Char) (hc : c ∈ cutset) :
    Trim (s ++ [c]) cutset = Trim s cutset := by
  have hp : (fun c => cutset.contains c) c = true := by simpa using hc
  by_cases hall : ∀ x ∈ s, x ∈ cutset
  · rw [Trim_eq_nil s hall, Trim_eq_nil]
    intro x hx
    rcases List.mem_append.mp hx with hx | hx
    · exact hall x hx
    · simp at hx; subst hx; exact hc
  · have hex : ∃ x ∈ s, ¬ (fun c => cutset.contains c) x = true := by
      push_neg at hall
      obtain ⟨x, hx, hx2⟩ := hall
      exact ⟨x, hx, by simpa using hx2⟩
    unfold Trim
    rw [dropWhile_append_of_exists _ s [c] hex, List.reverse_append]
    simp only [List.reverse_cons, List.reverse_nil, List.nil_append, List.singleton_append,
      List.dropWhile_cons, hp, if_true]

theorem dropWhile_eq_self_of_head (p : Char → Bool) (s : Str)
    (h : ∀ c, s.head? = some c → p c = false) : s.dropWhile p = s := by
  cases s with
  | nil => rfl
  | cons c cs =>
    have hc : p c = false := h c rfl
    simp [List.dropWhile_cons, hc]

/-- A content that neither begins nor ends with a character of the cutset is
left unchanged by the trimming. -/
theorem Trim_eq_self (s : Str) (hfirst : ∀ c, s.head? = some c → c ∉ cutset)
    (hlast : ∀ c, s.getLast? = some c → c ∉ cutset) : Trim s cutset = s := by
  unfold Trim
  rw [dropWhile_eq_self_of_head _ s (fun c hc => by simpa using hfirst c hc)]
  rw [dropWhile_eq_self_of_head _ s.reverse
    (fun c hc => by
      rw [List.head?_reverse] at hc
      simpa using hlast c hc)]
  exact List.reverse_reverse s

/-- On a content whose trimmed form is made of point lines only, the value of
`getCentroid` is the mean over all lines of the split result. -/
theorem getCentroid_pointLines (content : Str)
    (h : ∀ l ∈ Split (Trim content cutset) '\n', pointLine l = true) :
    (getCentroid (.ok content)).2 = .ok (meanOfPoints (Split (Trim content cutset) '\n')) := by
  have hfil : (Split (Trim content cutset) '\n').filter (fun l => !l.isEmpty) =
      Split (Trim content cutset) '\n' := by
    rw [List.filter_eq_self]
    intro l hl
    have := pointLine_ne_nil (h l hl)
    cases l <;> simp_all
  rw [getCentroid_value content (fun l hl _ => pointLine_length (h l hl)), hfil]
  rfl

/-! ## C1: the centroid is the mean of the points -/

/-- C1, the claim as stated fails: the content ` 7 1 2 3 4` is one line of
six single-space-separated fields (the first one empty) whose fields 2, 3, 4
are the numbers 1, 2, 3, so the mean of its points is (1, 2, 3); but
`getCentroid` trims the leading space of the content before it splits, the
fields move one place, and it returns (2, 3, 4). -/
theorem getCentroid_mean_counterexample :
    (∀ l ∈ Split " 7 1 2 3 4".toList '\n', pointLine l = true) ∧
    meanOfPoints (Split " 7 1 2 3 4".toList '\n') =
      ⟨Flt.ofNat binary32 1, Flt.ofNat binary32 2, Flt.ofNat binary32 3⟩ ∧
    (getCentroid (.ok " 7 1 2 3 4".toList)).2 =
      .ok ⟨Flt.ofNat binary32 2, Flt.ofNat binary32 3, Flt.ofNat binary32 4⟩ ∧
    (getCentroid (.ok " 7 1 2 3 4".toList)).2 ≠
      .ok (meanOfPoints (Split " 7 1 2 3 4".toList '\n')) := by
  have h1 : meanOfPoints (Split " 7 1 2 3 4".toList '\n') =
      ⟨Flt.ofNat binary32 1, Flt.ofNat binary32 2, Flt.ofNat binary32 3⟩ := by
    set_option maxRecDepth 100000 in decide
  have h2 : (getCentroid (.ok " 7 1 2 3 4".toList)).2 =
      .ok ⟨Flt.ofNat binary32 2, Flt.ofNat binary32 3, Flt.ofNat binary32 4⟩ := by
    set_option maxRecDepth 100000 in decide
  refine ⟨by set_option maxRecDepth 100000 in decide, h1, h2, ?_⟩
  rw [h1, h2]
  set_option maxRecDepth 100000 in decide

/-- C1 (amended): for every file content that, once its leading and trailing
spaces, newlines and carriage returns are trimmed, is made of lines separated
by single newlines, each with at least five single-space-separated fields of
which the fields at index 2, 3, 4 parse as numbers, `getCentroid` returns the
arithmetic mean of the points: each coordinate summed in `float64` in line
order, divided by the number of lines and converted to `float32`. -/
theorem getCentroid_mean (content : Str)
    (h : ∀ l ∈ Split (Trim content cutset) '\n', pointLine l = true) :
    (getCentroid (.ok content)).2 = .ok (meanOfPoints (Split (Trim content cutset) '\n')) :=
  getCentroid_pointLines content h

/-- C1, the instance of the specification: the file with the two points
(1, 2, 3) and (3, 4, 5) at offset 2 gives (2, 3, 4). -/
theorem getCentroid_mean_witness :
    (getCentroid (.ok "a b 1 2 3\na b 3 4 5".toList)).2 =
      .ok (meanOfPoints (Split (Trim "a b 1 2 3\na b 3 4 5".toList cutset) '\n')) ∧
    meanOfPoints (Split (Trim "a b 1 2 3\na b 3 4 5".toList cutset) '\n') =
      ⟨Flt.ofNat binary32 2, Flt.ofNat binary32 3, Flt.ofNat binary32 4⟩ :=
  ⟨getCentroid_mean "a b 1 2 3\na b 3 4 5".toList (by set_option maxRecDepth 100000 in decide),
    by set_option maxRecDepth 100000 in decide⟩


/-! ## C5: the empty file -/

/-- C5, the claim as stated fails: on the empty content the trimmed content
is empty, `strings.Split` of the empty string is one empty line, so the line
count is 1 and not 0; every sum is 0, every quotient is 0 / 1 = 0, and the
centroid is (0, 0, 0), finite in every coordinate. -/
theorem getCentroid_empty_counterexample :
    (Split (Trim [] cutset) '\n').length = 1 ∧
    (getCentroid (.ok [])).2 = .ok ⟨Flt.zero, Flt.zero, Flt.zero⟩ ∧
    Flt.isNonFinite Flt.zero = false := by
  set_option maxRecDepth 100000 in decide

/-- C5 (amended): for a file whose content is empty, or only spaces,
newlines and carriage returns, `getCentroid` raises no error; the split
result is one empty line, the averaging division is a division by 1, and the
returned centroid is (0, 0, 0). -/
theorem getCentroid_empty (content : Str) (h : ∀ c ∈ content, c ∈ cutset) :
    Split (Trim content cutset) '\n' = [[]] ∧
    getCentroid (.ok content) =
      ([.print (.avg Flt.zero Flt.zero Flt.zero)], .ok ⟨Flt.zero, Flt.zero, Flt.zero⟩) := by
  have ht : Trim content " \n\r".toList = [] := Trim_eq_nil content h
  constructor
  · show Split (Trim content " \n\r".toList) '\n' = [[]]
    rw [ht]
    rfl
  · unfold getCentroid
    simp only [ht]
    set_option maxRecDepth 100000 in decide

/-- C5, an instance: a content of two spaces, a carriage return and two
newlines. -/
theorem getCentroid_empty_witness :
    Split (Trim "  \r\n\n".toList cutset) '\n' = [[]] ∧
    getCentroid (.ok "  \r\n\n".toList) =
      ([.print (.avg Flt.zero Flt.zero Flt.zero)], .ok ⟨Flt.zero, Flt.zero, Flt.zero⟩) :=
  getCentroid_empty "  \r\n\n".toList (by decide)

/-! ## C7: the trailing newline -/

/-- C7, the claim as stated fails: on the one point line `a b 1 2 3` followed
by a newline, the trailing newline is trimmed before the split, the split
result is the one point line, and `getCentroid` returns the sums divided by
1, that is (1, 2, 3), not the sums divided by 2. -/
theorem getCentroid_trailing_newline_counterexample :
    (∀ l ∈ Split "a b 1 2 3".toList '\n', pointLine l = true) ∧
    Split (Trim "a b 1 2 3\n".toList cutset) '\n' = ["a b 1 2 3".toList] ∧
    (getCentroid (.ok ("a b 1 2 3".toList ++ ['\n']))).2 =
      .ok ⟨Flt.ofNat binary32 1, Flt.ofNat binary32 2, Flt.ofNat binary32 3⟩ ∧
    (getCentroid (.ok ("a b 1 2 3".toList ++ ['\n']))).2 ≠
      .ok (sumsOver (Split "a b 1 2 3".toList '\n')
            ((Split "a b 1 2 3".toList '\n').length + 1)) := by
  have h1 : (getCentroid (.ok ("a b 1 2 3".toList ++ ['\n']))).2 =
      .ok ⟨Flt.ofNat binary32 1, Flt.ofNat binary32 2, Flt.ofNat binary32 3⟩ := by
    set_option maxRecDepth 100000 in decide
  have h2 : sumsOver (Split "a b 1 2 3".toList '\n') ((Split "a b 1 2 3".toList '\n').length + 1) =
      ⟨.fin false 8388608 (-24), Flt.ofNat binary32 1, .fin false 12582912 (-23)⟩ := by
    set_option maxRecDepth 100000 in decide
  refine ⟨by set_option maxRecDepth 100000 in decide, by decide, h1, ?_⟩
  rw [h1, h2]
  set_option maxRecDepth 100000 in decide

/-- C7 (amended): for every file content consisting of well-formed point
lines followed by a trailing newline, the trailing newline is trimmed before
the split, so the split result is that of the content without it and holds
no blank trailing line; `getCentroid` returns each coordinate sum divided by
the number k of point lines, the mean of the k points. -/
theorem getCentroid_trailing_newline (body : Str)
    (h : ∀ l ∈ Split (Trim body cutset) '\n', pointLine l = true) :
    Split (Trim (body ++ ['\n']) cutset) '\n' = Split (Trim body cutset) '\n' ∧
    (getCentroid (.ok (body ++ ['\n']))).2 =
      .ok (sumsOver (Split (Trim body cutset) '\n') (Split (Trim body cutset) '\n').length) := by
  have ht : Trim (body ++ ['\n']) cutset = Trim body cutset :=
    Trim_append_cut body '\n' (by decide)
  refine ⟨by rw [ht], ?_⟩
  rw [getCentroid_pointLines (body ++ ['\n']) (by rw [ht]; exact h), ht]
  rfl

/-- C7, an instance: two point lines and a trailing newline give the mean of
the two points, (2, 3, 4). -/
theorem getCentroid_trailing_newline_witness :
    (Split (Trim ("a b 1 2 3\na b 3 4 5".toList ++ ['\n']) cutset) '\n' =
        Split (Trim "a b 1 2 3\na b 3 4 5".toList cutset) '\n' ∧
      (getCentroid (.ok ("a b 1 2 3\na b 3 4 5".toList ++ ['\n']))).2 =
        .ok (sumsOver (Split (Trim "a b 1 2 3\na b 3 4 5".toList cutset) '\n')
              (Split (Trim "a b 1 2 3\na b 3 4 5".toList cutset) '\n').length)) ∧
    sumsOver (Split (Trim "a b 1 2 3\na b 3 4 5".toList cutset) '\n')
        (Split (Trim "a b 1 2 3\na b 3 4 5".toList cutset) '\n').length =
      ⟨Flt.ofNat binary32 2, Flt.ofNat binary32 3, Flt.ofNat binary32 4⟩ :=
  ⟨getCentroid_trailing_newline "a b 1 2 3\na b 3 4 5".toList
      (by set_option maxRecDepth 100000 in decide),
    by set_option maxRecDepth 100000 in decide⟩


/-! ## C6: parse failures -/

theorem ParseFloat_syntax_value (f : Str) (h : (ParseFloat f).2 = some .ErrSyntax) :
    (ParseFloat f).1 = Flt.zero := by
  unfold ParseFloat at h ⊢
  split
  · simp_all
  · split
    · rfl
    · split
      · rfl
      · rename_i r hr hrest
        simp only [hr, hrest] at h
        simp only [if_false] at h
        split at h <;> simp at h

theorem roundQ_cases (f : Format) (s : Bool) (n d : Nat) :
    roundQ f s n d = .inf s ∨ ∃ m e, roundQ f s n d = .fin s m e := by
  unfold roundQ
  simp only
  split_ifs <;> simp

theorem roundScaled_cases (f : Format) (s : Bool) (n : Nat) (e : Int) :
    roundScaled f s n e = .inf s ∨ ∃ m e1, roundScaled f s n e = .fin s m e1 := by
  unfold roundScaled
  split_ifs <;> exact roundQ_cases _ _ _ _

theorem readFloat_neg (c : Char) (cs : Str) (r : Scan) (h : readFloat (c :: cs) = some r) :
    r.neg = (c == '-') := by
  unfold readFloat at h
  simp only at h
  generalize readMantissa _ _ _ = rm at h
  obtain ⟨st, s3⟩ := rm
  simp only at h
  split_ifs at h <;> split at h <;> first
    | (simp at h; done)
    | (split_ifs at h; simp only [Option.some.injEq] at h; rw [← h])

/-- The value `ParseFloat` returns with a range error: `-Inf` for a string
with a minus sign, `+Inf` otherwise. -/
theorem ParseFloat_range_sign (f : Str) (h : (ParseFloat f).2 = some .ErrRange) :
    (ParseFloat f).1 = .inf (decide (f.head? = some '-')) := by
  unfold ParseFloat at h ⊢
  cases hs : special f with
  | some v => simp [hs] at h
  | none =>
    simp only [hs] at h ⊢
    cases hr : readFloat f with
    | none => simp [hr] at h
    | some r =>
      simp only [hr] at h ⊢
      have hneg : r.neg = decide (f.head? = some '-') := by
        cases f with
        | nil => simp [readFloat] at hr
        | cons c cs =>
          rw [readFloat_neg c cs r hr]
          simp only [List.head?_cons, Option.some.injEq]
          by_cases hc : c = '-' <;> simp [hc]
      by_cases hrest : r.rest ≠ []
      · simp [hrest] at h
      · simp only [hrest, if_false] at h ⊢
        have hv : ∀ v : F64, (v = .inf r.neg ∨ ∃ m e, v = .fin r.neg m e) →
            (if Flt.isNonFinite v = true then some NumErr.ErrRange else none) = some .ErrRange →
            v = .inf (decide (f.head? = some '-')) := by
          intro v hc hn
          rcases hc with hc | ⟨m, e, hc⟩
          · rw [hc, hneg]
          · subst hc; simp [Flt.isNonFinite] at hn
        apply hv _ _ h
        split_ifs
        · exact roundScaled_cases _ _ _ _
        · exact roundQ_cases _ _ _ _
        · exact roundQ_cases _ _ _ _

/-- C6, the claim as stated fails: in the line `a b 1e999 2 3` the field at
index 2 fails to parse with a range error, for which `ParseFloat` returns
`+Inf`; the loop adds the returned value whatever the error, so the sum `x`
goes from 0 to `+Inf` and the centroid is (+Inf, 2, 3): the failing field did
change its accumulator.  And in the line `a b 1 2 ` the fifth field is empty
and fails to parse; the trailing space is trimmed with the content before the
split, the line is left with four fields, and `getCentroid` aborts on
`args[4]`. -/
theorem getCentroid_parse_failure_counterexample :
    fieldError "a b 1e999 2 3".toList 2 = some .ErrRange ∧
    (addLine "a b 1e999 2 3".toList ⟨Flt.zero, Flt.zero, Flt.zero⟩).2 =
      some ⟨.inf false, Flt.ofNat binary64 2, Flt.ofNat binary64 3⟩ ∧
    (Flt.inf false : F64) ≠ Flt.zero ∧
    (getCentroid (.ok "a b 1e999 2 3".toList)).2 =
      .ok ⟨.inf false, Flt.ofNat binary32 2, Flt.ofNat binary32 3⟩ ∧
    (Split "a b 1 2 ".toList ' ').length = 5 ∧
    fieldError "a b 1 2 ".toList 4 = some .ErrSyntax ∧
    (getCentroid (.ok "a b 1 2 ".toList)).2 = .stop .panic := by
  set_option maxRecDepth 100000 in
  set_option exponentiation.threshold 100000 in
  refine ⟨by decide, by decide, by decide, by decide, by decide, by decide, by decide⟩

theorem okSum_iff (x : F64) : okSum x = true ↔ x.valid binary64 = true ∧ x ≠ .fin true 0 0 := by
  simp [okSum]

theorem okSum_add (x v : F64) (hx : okSum x = true) (hv : v.valid binary64 = true) :
    okSum (Flt.add binary64 x v) = true := by
  rw [okSum_iff] at hx ⊢
  exact ⟨Flt.add_valid binary64 (by decide) x v,
    Flt.add_ne_negZero binary64 (by decide) (by decide) x v hx.1 hv hx.2⟩

theorem add_syntax_error (x : F64) (l : Str) (i : Nat) (hx : okSum x = true)
    (he : fieldError l i = some .ErrSyntax) : Flt.add binary64 x (fieldValue l i) = x := by
  rw [okSum_iff] at hx
  have hz : fieldValue l i = Flt.zero := ParseFloat_syntax_value (field l i) he
  rw [hz]
  exact Flt.add_zero_right binary64 x hx.1 hx.2

/-- The loop body on a line with five fields and sums that are `float64`
values other than negative zero: it does not abort, the new sums are again
such values, each is the old sum plus the value of its own field, and a field
with a syntax error leaves its sum unchanged. -/
theorem addLine_good (l : Str) (acc : Sums) (hne : l ≠ [])
    (hlen : 5 ≤ (Split l ' ').length) (hg : acc.good = true) :
    ∃ acc1 : Sums, (addLine l acc).2 = some acc1 ∧ acc1.good = true ∧
      acc1.x = Flt.add binary64 acc.x (fieldValue l 2) ∧
      acc1.y = Flt.add binary64 acc.y (fieldValue l 3) ∧
      acc1.z = Flt.add binary64 acc.z (fieldValue l 4) ∧
      (fieldError l 2 = some .ErrSyntax → acc1.x = acc.x) ∧
      (fieldError l 3 = some .ErrSyntax → acc1.y = acc.y) ∧
      (fieldError l 4 = some .ErrSyntax → acc1.z = acc.z) := by
  have hg2 : (okSum acc.x = true ∧ okSum acc.y = true) ∧ okSum acc.z = true := by
    simpa [Sums.good] using hg
  refine ⟨_, addLine_value l acc hne hlen, ?_, rfl, rfl, rfl, ?_, ?_, ?_⟩
  · simp only [Sums.good, Bool.and_eq_true]
    exact ⟨⟨okSum_add _ _ hg2.1.1 (ParseFloat_valid _), okSum_add _ _ hg2.1.2 (ParseFloat_valid _)⟩,
      okSum_add _ _ hg2.2 (ParseFloat_valid _)⟩
  · exact add_syntax_error acc.x l 2 hg2.1.1
  · exact add_syntax_error acc.y l 3 hg2.1.2
  · exact add_syntax_error acc.z l 4 hg2.2

/-- C6 (amended): for every file content in which every non-empty line, once
the content is trimmed as `getCentroid` does before it splits, has at least
five single-space-separated fields, a coordinate field that fails to parse
does not make `getCentroid` abort: the result is the three sums over the
non-empty lines divided by the line count.  The sums start as, and stay,
`float64` values other than negative zero; on every such line the loop body
adds to each sum the value `ParseFloat` returned for that coordinate's own
field, whatever the errors of the line.  A field that fails with a syntax
error leaves its sum unchanged (the value returned with the error is 0); a
field that fails with a range error adds the infinity returned with the
error to its sum, `-Inf` for a field with a minus sign and `+Inf`
otherwise. -/
theorem getCentroid_parse_failure (content : Str)
    (h : ∀ l ∈ Split (Trim content cutset) '\n', l ≠ [] → 5 ≤ (Split l ' ').length) :
    (getCentroid (.ok content)).2 =
      .ok (sumsOver ((Split (Trim content cutset) '\n').filter (fun l => !l.isEmpty))
            (Split (Trim content cutset) '\n').length) ∧
    Sums.good ⟨Flt.zero, Flt.zero, Flt.zero⟩ = true ∧
    (∀ l ∈ Split (Trim content cutset) '\n', l ≠ [] → ∀ acc : Sums, acc.good = true →
      ∃ acc1 : Sums, (addLine l acc).2 = some acc1 ∧ acc1.good = true ∧
        acc1.x = Flt.add binary64 acc.x (fieldValue l 2) ∧
        acc1.y = Flt.add binary64 acc.y (fieldValue l 3) ∧
        acc1.z = Flt.add binary64 acc.z (fieldValue l 4) ∧
        (fieldError l 2 = some .ErrSyntax → acc1.x = acc.x) ∧
        (fieldError l 3 = some .ErrSyntax → acc1.y = acc.y) ∧
        (fieldError l 4 = some .ErrSyntax → acc1.z = acc.z)) ∧
    (∀ l i, fieldError l i = some .ErrRange →
      fieldValue l i = .inf (decide ((field l i).head? = some '-'))) :=
  ⟨getCentroid_value content h, by decide,
    fun l hl hne acc hg => addLine_good l acc hne (h l hl hne) hg,
    fun l i he => ParseFloat_range_sign (field l i) he⟩

/-- C6, an instance: in `a b x 2 3` the field `x` is a syntax error and
leaves the sum of x unchanged, so with the line `a b 1 4 5` the centroid is
(1/2, 3, 4); in `a b -1e999 2 3` the field `-1e999` is a range error and
makes the sum of x `-Inf`. -/
theorem getCentroid_parse_failure_witness :
    ((getCentroid (.ok "a b x 2 3\na b 1 4 5".toList)).2 =
      .ok (sumsOver ((Split (Trim "a b x 2 3\na b 1 4 5".toList cutset) '\n').filter
              (fun l => !l.isEmpty))
            (Split (Trim "a b x 2 3\na b 1 4 5".toList cutset) '\n').length) ∧
    Sums.good ⟨Flt.zero, Flt.zero, Flt.zero⟩ = true ∧
    (∀ l ∈ Split (Trim "a b x 2 3\na b 1 4 5".toList cutset) '\n', l ≠ [] →
      ∀ acc : Sums, acc.good = true →
      ∃ acc1 : Sums, (addLine l acc).2 = some acc1 ∧ acc1.good = true ∧
        acc1.x = Flt.add binary64 acc.x (fieldValue l 2) ∧
        acc1.y = Flt.add binary64 acc.y (fieldValue l 3) ∧
        acc1.z = Flt.add binary64 acc.z (fieldValue l 4) ∧
        (fieldError l 2 = some .ErrSyntax → acc1.x = acc.x) ∧
        (fieldError l 3 = some .ErrSyntax → acc1.y = acc.y) ∧
        (fieldError l 4 = some .ErrSyntax → acc1.z = acc.z)) ∧
    (∀ l i, fieldError l i = some .ErrRange →
      fieldValue l i = .inf (decide ((field l i).head? = some '-')))) ∧
    fieldError "a b x 2 3".toList 2 = some .ErrSyntax ∧
    (getCentroid (.ok "a b x 2 3\na b 1 4 5".toList)).2 =
      .ok ⟨.fin false 8388608 (-24), Flt.ofNat binary32 3, Flt.ofNat binary32 4⟩ ∧
    fieldError "a b -1e999 2 3".toList 2 = some .ErrRange ∧
    (getCentroid (.ok "a b -1e999 2 3".toList)).2 =
      .ok ⟨.inf true, Flt.ofNat binary32 2, Flt.ofNat binary32 3⟩ :=
  ⟨getCentroid_parse_failure "a b x 2 3\na b 1 4 5".toList (by decide),
    by decide, by set_option maxRecDepth 100000 in decide,
    by set_option maxRecDepth 100000 in set_option exponentiation.threshold 100000 in decide,
    by set_option maxRecDepth 100000 in set_option exponentiation.threshold 100000 in decide⟩

/-! ## Sign symmetry of the floating-point operations -/

theorem roundQ_neg (f : Format) (s : Bool) (n d : Nat) :
    (roundQ f s n d).neg = roundQ f (!s) n d := by
  unfold roundQ
  simp only
  split_ifs <;> rfl

theorem roundScaled_neg (f : Format) (s : Bool) (n : Nat) (e : Int) :
    (roundScaled f s n e).neg = roundScaled f (!s) n e := by
  unfold roundScaled
  split_ifs <;> exact roundQ_neg _ _ _ _

theorem Flt.neg_neg (x : Flt) : x.neg.neg = x := by
  cases x <;> simp [Flt.neg]

theorem Flt.signed_not (s : Bool) (m : Nat) : Flt.signed (!s) m = -Flt.signed s m := by
  cases s <;> simp [Flt.signed]

theorem Flt.add_comm (f : Format) (a b : Flt) : Flt.add f a b = Flt.add f b a := by
  cases a with
  | nan => cases b <;> rfl
  | inf s =>
    cases b with
    | nan => rfl
    | inf t =>
      simp only [Flt.add]
      by_cases h : s = t
      · subst h; rfl
      · have h2 : ¬ t = s := fun h3 => h h3.symm
        simp [h, h2]
    | fin t m e => rfl
  | fin s1 m1 e1 =>
    cases b with
    | nan => rfl
    | inf t => rfl
    | fin s2 m2 e2 =>
      simp only [Flt.add]
      rw [min_comm e1 e2, Int.add_comm (Flt.signed s1 m1 * _) _, Bool.and_comm s1 s2]

/-- Negating both operands of a sum negates the sum, except when the sum is
the positive zero of an exact cancellation, which stays a positive zero. -/
theorem Flt.add_neg_neg (f : Format) (a b : Flt) :
    Flt.add f a.neg b.neg = (Flt.add f a b).neg ∨
      (Flt.add f a b = Flt.zero ∧ Flt.add f a.neg b.neg = Flt.zero) := by
  cases a with
  | nan => left; cases b <;> rfl
  | inf s =>
    cases b with
    | nan => left; rfl
    | inf t =>
      left
      cases s <;> cases t <;> rfl
    | fin t m e => left; rfl
  | fin s1 m1 e1 =>
    cases b with
    | nan => left; rfl
    | inf t => left; rfl
    | fin s2 m2 e2 =>
      show Flt.add f (.fin (!s1) m1 e1) (.fin (!s2) m2 e2) =
          (Flt.add f (.fin s1 m1 e1) (.fin s2 m2 e2)).neg ∨
        (Flt.add f (.fin s1 m1 e1) (.fin s2 m2 e2) = Flt.zero ∧
          Flt.add f (.fin (!s1) m1 e1) (.fin (!s2) m2 e2) = Flt.zero)
      simp only [Flt.add, Flt.signed_not]
      have hv : -Flt.signed s1 m1 * 2 ^ (e1 - min e1 e2).toNat +
          -Flt.signed s2 m2 * 2 ^ (e2 - min e1 e2).toNat =
          -(Flt.signed s1 m1 * 2 ^ (e1 - min e1 e2).toNat +
            Flt.signed s2 m2 * 2 ^ (e2 - min e1 e2).toNat) := by ring
      rw [hv]
      generalize Flt.signed s1 m1 * 2 ^ (e1 - min e1 e2).toNat +
        Flt.signed s2 m2 * 2 ^ (e2 - min e1 e2).toNat = v
      by_cases h0 : v = 0
      · subst h0
        simp only [neg_zero, if_true]
        cases s1 <;> cases s2 <;> simp [Flt.neg, Flt.zero]
      · have h1 : ¬ -v = 0 := by omega
        simp only [h0, h1, if_false]
        left
        rw [roundScaled_neg, Int.natAbs_neg]
        congr 1
        by_cases hlt : v < 0
        · have : ¬ (-v < 0) := by omega
          simp [hlt, this]
        · have : -v < 0 := by omega
          simp [hlt, this]

theorem Flt.mul_neg_self (f : Format) (x : Flt) :
    Flt.mul f x.neg x.neg = Flt.mul f x x := by
  cases x with
  | nan => rfl
  | inf s => cases s <;> rfl
  | fin s m e => cases s <;> rfl

/-- The squared difference of two numbers does not depend on their order. -/
theorem Flt.sqdiff_comm (f : Format) (a b : Flt) :
    Flt.mul f (Flt.sub f a b) (Flt.sub f a b) = Flt.mul f (Flt.sub f b a) (Flt.sub f b a) := by
  have hba : Flt.sub f b a = Flt.add f a.neg b.neg.neg := by
    rw [Flt.neg_neg]
    exact Flt.add_comm f b a.neg
  have hab : Flt.sub f a b = Flt.add f a b.neg := rfl
  rcases Flt.add_neg_neg f a b.neg with h | ⟨h1, h2⟩
  · rw [hba, hab, h, Flt.mul_neg_self]
  · rw [hba, hab, h1, h2]

theorem Flt.fma_neg_self (f : Format) (x z : Flt) :
    Flt.fma f x.neg x.neg z = Flt.fma f x x z := by
  cases x with
  | nan => rfl
  | inf s => cases s <;> rfl
  | fin s m e => cases z <;> cases s <;> rfl

/-- The fused square of a difference plus `z` does not depend on the order of
the two numbers. -/
theorem Flt.fma_sqdiff_comm (f : Format) (a b z : Flt) :
    Flt.fma f (Flt.sub f a b) (Flt.sub f a b) z = Flt.fma f (Flt.sub f b a) (Flt.sub f b a) z := by
  have hba : Flt.sub f b a = Flt.add f a.neg b.neg.neg := by
    rw [Flt.neg_neg]
    exact Flt.add_comm f b a.neg
  have hab : Flt.sub f a b = Flt.add f a b.neg := rfl
  rcases Flt.add_neg_neg f a b.neg with h | ⟨h1, h2⟩
  · rw [hba, hab, h, Flt.fma_neg_self]
  · rw [hba, hab, h1, h2]

theorem distance_comm (fz : Fusion) (a b : Centroid) : distance fz a b = distance fz b a := by
  unfold distance
  simp only
  rw [Flt.sqdiff_comm binary32 a.c0 b.c0, Flt.sqdiff_comm binary32 a.c1 b.c1,
    Flt.sqdiff_comm binary32 a.c2 b.c2, Flt.fma_sqdiff_comm binary32 a.c0 b.c0,
    Flt.fma_sqdiff_comm binary32 a.c1 b.c1, Flt.fma_sqdiff_comm binary32 a.c2 b.c2]

/-! ## The pairwise loop -/

theorem mem_innerLoop {fz : Fusion} (a : object) (l : List object) (r : Record) :
    r ∈ innerLoop fz a l ↔ ∃ b ∈ l, r ∈ emitPair fz a b := by
  induction l with
  | nil => simp [innerLoop]
  | cons b l ih => simp [innerLoop, ih]

theorem mem_outerLoop {fz : Fusion} (objects l : List object) (r : Record) :
    r ∈ outerLoop fz objects l ↔ ∃ a ∈ l, r ∈ innerLoop fz a objects := by
  induction l with
  | nil => simp [outerLoop]
  | cons a l ih => simp [outerLoop, ih]

theorem mem_pairLoop {fz : Fusion} (objects : List object) (r : Record) :
    r ∈ pairLoop fz objects ↔ ∃ a ∈ objects, ∃ b ∈ objects, r ∈ emitPair fz a b := by
  simp [pairLoop, mem_outerLoop, mem_innerLoop]

theorem mem_emitPair {fz : Fusion} (a b : object) (r : Record) :
    r ∈ emitPair fz a b ↔ a.object ≠ b.object ∧
      r = ⟨a.label, a.object, b.label, b.object, distance fz a.centroid b.centroid⟩ := by
  unfold emitPair
  split_ifs with h <;> simp [h]

theorem length_innerLoop {fz : Fusion} (a : object) (l : List object) :
    (innerLoop fz a l).length + (l.map (fun o => o.object)).count a.object = l.length := by
  induction l with
  | nil => simp [innerLoop]
  | cons b l ih =>
    by_cases h : a.object = b.object
    · simp [innerLoop, emitPair, h, List.count_cons] at ih ⊢
      omega
    · have h2 : ¬ b.object = a.object := fun h3 => h h3.symm
      simp [innerLoop, emitPair, h, h2, List.count_cons] at ih ⊢
      omega

theorem length_outerLoop {fz : Fusion} (objects l : List object)
    (hnd : (objects.map (fun o => o.object)).Nodup) (hsub : ∀ a ∈ l, a ∈ objects) :
    (outerLoop fz objects l).length = l.length * (objects.length - 1) := by
  induction l with
  | nil => simp [outerLoop]
  | cons a l ih =>
    have hmem : a.object ∈ objects.map (fun o => o.object) :=
      List.mem_map_of_mem _ (hsub a (List.mem_cons_self _ _))
    have hc : (objects.map (fun o => o.object)).count a.object = 1 :=
      List.count_eq_one_of_mem hnd hmem
    have hl := @length_innerLoop fz a objects
    rw [hc] at hl
    simp only [outerLoop, List.length_append, List.length_cons,
      ih (fun x hx => hsub x (List.mem_cons_of_mem _ hx))]
    have : (innerLoop fz a objects).length = objects.length - 1 := by omega
    rw [this]
    ring


/-! ## C2, C3, C4: the records of the pairwise loop -/

/-- C2: self-object exclusion.  For every object collection and every two
entries `a`, `b` with the same `object` identifier (whatever their labels,
`a` paired with itself included, in the collection or not), the loop body
emits nothing for (a, b) and nothing for (b, a), and no record of the whole
loop carries that pair of identifiers in either order. -/
theorem pairLoop_self_exclusion (fz : Fusion) (objects : List object) (a b : object)
    (h : a.object = b.object) :
    emitPair fz a b = [] ∧ emitPair fz b a = [] ∧
    ∀ r ∈ pairLoop fz objects,
      ¬ (r.object1 = a.object ∧ r.object2 = b.object) ∧
      ¬ (r.object1 = b.object ∧ r.object2 = a.object) := by
  refine ⟨by simp [emitPair, h], by simp [emitPair, h], ?_⟩
  intro r hr
  obtain ⟨x, _, y, _, hxy⟩ := (mem_pairLoop objects r).mp hr
  obtain ⟨hne, hrec⟩ := (mem_emitPair x y r).mp hxy
  subst hrec
  constructor
  · rintro ⟨h1, h2⟩
    exact hne (by simp only at h1 h2; rw [h1, h2, h])
  · rintro ⟨h1, h2⟩
    exact hne (by simp only at h1 h2; rw [h1, h2, h])

/-- C2, an instance: two entries with labels 1 and 2 sharing the object
identifier 7, next to an entry with identifier 8. -/
theorem pairLoop_self_exclusion_witness :
    emitPair unfused ⟨1, 7, ⟨Flt.zero, Flt.zero, Flt.zero⟩⟩ ⟨2, 7, ⟨Flt.ofNat binary32 1, Flt.zero, Flt.zero⟩⟩ = [] ∧
    emitPair unfused ⟨2, 7, ⟨Flt.ofNat binary32 1, Flt.zero, Flt.zero⟩⟩ ⟨1, 7, ⟨Flt.zero, Flt.zero, Flt.zero⟩⟩ = [] ∧
    ∀ r ∈ pairLoop unfused [⟨1, 7, ⟨Flt.zero, Flt.zero, Flt.zero⟩⟩,
        ⟨2, 7, ⟨Flt.ofNat binary32 1, Flt.zero, Flt.zero⟩⟩,
        ⟨3, 8, ⟨Flt.zero, Flt.ofNat binary32 1, Flt.zero⟩⟩],
      ¬ (r.object1 = (7 : Int) ∧ r.object2 = (7 : Int)) ∧
      ¬ (r.object1 = (7 : Int) ∧ r.object2 = (7 : Int)) :=
  pairLoop_self_exclusion unfused
    [⟨1, 7, ⟨Flt.zero, Flt.zero, Flt.zero⟩⟩,
      ⟨2, 7, ⟨Flt.ofNat binary32 1, Flt.zero, Flt.zero⟩⟩,
      ⟨3, 8, ⟨Flt.zero, Flt.ofNat binary32 1, Flt.zero⟩⟩]
    ⟨1, 7, ⟨Flt.zero, Flt.zero, Flt.zero⟩⟩ ⟨2, 7, ⟨Flt.ofNat binary32 1, Flt.zero, Flt.zero⟩⟩
    rfl

/-- C3: cardinality.  For every object collection of n entries whose object
identifiers are pairwise distinct, the pairwise loop emits exactly
n * (n - 1) records. -/
theorem pairLoop_cardinality (fz : Fusion) (objects : List object)
    (h : (objects.map (fun o => o.object)).Nodup) :
    (pairLoop fz objects).length = objects.length * (objects.length - 1) :=
  length_outerLoop objects objects h (fun _ ha => ha)

/-- C3, an instance: three entries with the identifiers 7, 8, 9 give six
records. -/
theorem pairLoop_cardinality_witness :
    (pairLoop unfused [⟨1, 7, ⟨Flt.zero, Flt.zero, Flt.zero⟩⟩,
        ⟨1, 8, ⟨Flt.ofNat binary32 1, Flt.zero, Flt.zero⟩⟩,
        ⟨2, 9, ⟨Flt.zero, Flt.ofNat binary32 1, Flt.zero⟩⟩]).length = 3 * (3 - 1) :=
  pairLoop_cardinality unfused
    [⟨1, 7, ⟨Flt.zero, Flt.zero, Flt.zero⟩⟩,
      ⟨1, 8, ⟨Flt.ofNat binary32 1, Flt.zero, Flt.zero⟩⟩,
      ⟨2, 9, ⟨Flt.zero, Flt.ofNat binary32 1, Flt.zero⟩⟩]
    (by decide)

/-- C4: distance symmetry.  For every two entries A and B of the collection
with distinct object identifiers, the record for (A, B) and the record for
(B, A) are both emitted, and they carry the same distance: the distance
computed from (A.centroid, B.centroid) equals the one computed from
(B.centroid, A.centroid), however the multiply-adds are compiled. -/
theorem pairLoop_distance_symmetry (fz : Fusion) (objects : List object) (a b : object)
    (ha : a ∈ objects) (hb : b ∈ objects) (h : a.object ≠ b.object) :
    (⟨a.label, a.object, b.label, b.object, distance fz a.centroid b.centroid⟩ : Record)
      ∈ pairLoop fz objects ∧
    (⟨b.label, b.object, a.label, a.object, distance fz b.centroid a.centroid⟩ : Record)
      ∈ pairLoop fz objects ∧
    distance fz a.centroid b.centroid = distance fz b.centroid a.centroid := by
  refine ⟨?_, ?_, distance_comm fz _ _⟩
  · exact (mem_pairLoop objects _).mpr ⟨a, ha, b, hb, (mem_emitPair a b _).mpr ⟨h, rfl⟩⟩
  · exact (mem_pairLoop objects _).mpr
      ⟨b, hb, a, ha, (mem_emitPair b a _).mpr ⟨fun h2 => h h2.symm, rfl⟩⟩

/-- C4, an instance: the entries with centroids (0, 0, 0) and (3, 4, 0). -/
theorem pairLoop_distance_symmetry_witness :
    (⟨1, 7, 1, 8, distance unfused ⟨Flt.zero, Flt.zero, Flt.zero⟩
        ⟨Flt.ofNat binary32 3, Flt.ofNat binary32 4, Flt.zero⟩⟩ : Record)
      ∈ pairLoop unfused [⟨1, 7, ⟨Flt.zero, Flt.zero, Flt.zero⟩⟩,
          ⟨1, 8, ⟨Flt.ofNat binary32 3, Flt.ofNat binary32 4, Flt.zero⟩⟩] ∧
    (⟨1, 8, 1, 7, distance unfused ⟨Flt.ofNat binary32 3, Flt.ofNat binary32 4, Flt.zero⟩
        ⟨Flt.zero, Flt.zero, Flt.zero⟩⟩ : Record)
      ∈ pairLoop unfused [⟨1, 7, ⟨Flt.zero, Flt.zero, Flt.zero⟩⟩,
          ⟨1, 8, ⟨Flt.ofNat binary32 3, Flt.ofNat binary32 4, Flt.zero⟩⟩] ∧
    distance unfused ⟨Flt.zero, Flt.zero, Flt.zero⟩
        ⟨Flt.ofNat binary32 3, Flt.ofNat binary32 4, Flt.zero⟩ =
      distance unfused ⟨Flt.ofNat binary32 3, Flt.ofNat binary32 4, Flt.zero⟩
        ⟨Flt.zero, Flt.zero, Flt.zero⟩ :=
  pairLoop_distance_symmetry unfused
    [⟨1, 7, ⟨Flt.zero, Flt.zero, Flt.zero⟩⟩,
      ⟨1, 8, ⟨Flt.ofNat binary32 3, Flt.ofNat binary32 4, Flt.zero⟩⟩]
    ⟨1, 7, ⟨Flt.zero, Flt.zero, Flt.zero⟩⟩
    ⟨1, 8, ⟨Flt.ofNat binary32 3, Flt.ofNat binary32 4, Flt.zero⟩⟩
    (by simp) (by simp) (by decide)


/-! ## `Atoi` on decimal integers and on failures -/

theorem foldl_digits_ge (ds : Str) (n : Nat) :
    n ≤ ds.foldl (fun n c => n * 10 + digitVal c) n := by
  induction ds generalizing n with
  | nil => simp
  | cons c cs ih =>
    simp only [List.foldl_cons]
    exact Nat.le_trans (by omega) (ih (n * 10 + digitVal c))

theorem atoiFast_digits (ds : Str) (n : Nat) (h : ds.all isDigit = true) :
    atoiFast ds n = some (ds.foldl (fun n c => n * 10 + digitVal c) n) := by
  induction ds generalizing n with
  | nil => rfl
  | cons c cs ih =>
    simp only [List.all_cons, Bool.and_eq_true] at h
    simp [atoiFast, h.1, ih _ h.2]

theorem maxUint64_eq : maxUint64 = 18446744073709551615 := by decide

theorem parseUintLoop_digits (maxVal : Nat) (ds : Str) (n : Nat) (h : ds.all isDigit = true)
    (hmax : maxVal ≤ maxUint64)
    (hv : ds.foldl (fun n c => n * 10 + digitVal c) n ≤ maxVal) :
    parseUintLoop maxVal ds n = (ds.foldl (fun n c => n * 10 + digitVal c) n, none) := by
  induction ds generalizing n with
  | nil => rfl
  | cons c cs ih =>
    simp only [List.all_cons, Bool.and_eq_true] at h
    simp only [List.foldl_cons] at hv ⊢
    have hge := foldl_digits_ge cs (n * 10 + digitVal c)
    rw [maxUint64_eq] at hmax
    have h1 : ¬ (n ≥ maxUint64 / 10 + 1) := by rw [maxUint64_eq]; omega
    have h2 : ¬ (n * 10 + digitVal c > maxUint64 ∨ n * 10 + digitVal c > maxVal) := by
      rw [maxUint64_eq]; omega
    unfold parseUintLoop
    simp only [h.1, Bool.not_true, Bool.false_eq_true, if_false, h1, h2]
    exact ih _ h.2 hv

theorem Atoi_syntax_value (t : Str) (h : (Atoi t).2 = some .ErrSyntax) : (Atoi t).1 = 0 := by
  unfold Atoi at h ⊢
  split_ifs at h ⊢ with hlen
  · cases t with
    | nil => rfl
    | cons c cs =>
      simp only at h ⊢
      split_ifs at h ⊢ <;> first
        | rfl
        | (generalize atoiFast _ 0 = r at h ⊢; cases r <;> simp_all)
  · unfold ParseInt10 at h ⊢
    cases t with
    | nil => rfl
    | cons c cs =>
      simp only at h ⊢
      generalize ParseUint10 (if c == '+' ∨ c == '-' then cs else c :: cs) intSize = pu at h ⊢
      obtain ⟨un, err⟩ := pu
      simp only at h ⊢
      split_ifs at h ⊢ <;> simp_all

theorem Atoi_decimal (t : Str) (hd : isDecimalInteger t = true)
    (hlo : -2 ^ 63 ≤ decimalValue t) (hhi : decimalValue t < 2 ^ 63) :
    Atoi t = (decimalValue t, none) := by
  cases t with
  | nil => simp [isDecimalInteger] at hd
  | cons c cs =>
    unfold Atoi
    split_ifs with hlen
    · -- the fast path
      simp only
      by_cases hs : c = '+' ∨ c = '-'
      · have hcs : cs ≠ [] ∧ cs.all isDigit = true := by
          simpa [isDecimalInteger, hs] using hd
        have hb : (c == '-') = true ∨ (c == '+') = true := by
          rcases hs with hs | hs <;> simp [hs]
        simp only [hb, if_true, hcs.1, if_false, atoiFast_digits cs 0 hcs.2]
        rcases hs with hs | hs <;> subst hs <;> simp [decimalValue, digitsValue]
      · have hall : (c :: cs).all isDigit = true := by
          simpa [isDecimalInteger, hs] using hd
        have hb : ¬ ((c == '-') = true ∨ (c == '+') = true) := by
          simpa [or_comm] using hs
        have hm : ¬ c = '-' := fun h => hs (Or.inr h)
        have hp : ¬ c = '+' := fun h => hs (Or.inl h)
        simp only [hb, if_false, atoiFast_digits (c :: cs) 0 hall]
        simp [decimalValue, digitsValue, hm, hp]
    · -- the path through ParseInt
      unfold ParseInt10 ParseUint10
      simp only
      by_cases hs : c = '+' ∨ c = '-'
      · have hcs : cs ≠ [] ∧ cs.all isDigit = true := by
          simpa [isDecimalInteger, hs] using hd
        have hb : (c == '+') = true ∨ (c == '-') = true := by
          rcases hs with hs | hs <;> simp [hs]
        rcases hs with hs | hs
        · subst hs
          have hval : decimalValue ('+' :: cs) = (digitsValue cs : Int) := by
            simp [decimalValue]
          rw [hval] at hhi ⊢
          have hv : cs.foldl (fun n c => n * 10 + digitVal c) 0 ≤ 2 ^ intSize - 1 := by
            have : digitsValue cs < 2 ^ 63 := by exact_mod_cast hhi
            unfold digitsValue at this
            simp only [intSize]
            omega
          rw [if_pos hb, if_neg hcs.1,
            parseUintLoop_digits _ cs 0 hcs.2 (by simp [intSize, maxUint64]) hv]
          have hlt : ¬ (digitsValue cs ≥ 2 ^ 63) := by
            have : digitsValue cs < 2 ^ 63 := by exact_mod_cast hhi
            omega
          simp [intSize, digitsValue] at hlt ⊢
          omega
        · subst hs
          have hval : decimalValue ('-' :: cs) = -(digitsValue cs : Int) := by
            simp [decimalValue]
          rw [hval] at hlo ⊢
          have hle : digitsValue cs ≤ 2 ^ 63 := by
            have : (digitsValue cs : Int) ≤ 2 ^ 63 := by omega
            exact_mod_cast this
          have hv : cs.foldl (fun n c => n * 10 + digitVal c) 0 ≤ 2 ^ intSize - 1 := by
            unfold digitsValue at hle
            simp only [intSize]
            omega
          rw [if_pos hb, if_neg hcs.1,
            parseUintLoop_digits _ cs 0 hcs.2 (by simp [intSize, maxUint64]) hv]
          simp [intSize, digitsValue] at hle ⊢
          omega
      · have hall : (c :: cs).all isDigit = true := by
          simpa [isDecimalInteger, hs] using hd
        have hb : ¬ ((c == '+') = true ∨ (c == '-') = true) := by
          simpa using hs
        have hm : ¬ c = '-' := fun h => hs (Or.inr h)
        have hp : ¬ c = '+' := fun h => hs (Or.inl h)
        have hval : decimalValue (c :: cs) = (digitsValue (c :: cs) : Int) := by
          simp [decimalValue, hm, hp]
        rw [hval] at hhi ⊢
        have hlt : digitsValue (c :: cs) < 2 ^ 63 := by exact_mod_cast hhi
        have hv : (c :: cs).foldl (fun n c => n * 10 + digitVal c) 0 ≤ 2 ^ intSize - 1 := by
          unfold digitsValue at hlt
          simp only [intSize]
          omega
        rw [if_neg hb, if_neg (List.cons_ne_nil c cs),
          parseUintLoop_digits _ (c :: cs) 0 hall (by simp [intSize, maxUint64]) hv]
        simp [intSize, digitsValue, hm] at hlt ⊢
        omega


theorem length_le_byteLen (s : Str) : s.length ≤ byteLen s := by
  unfold byteLen
  induction s with
  | nil => simp
  | cons c cs ih =>
    have := Char.utf8Size_pos c
    simp only [List.length_cons, List.map_cons, List.sum_cons]
    omega

theorem digitVal_le (c : Char) (h : isDigit c = true) : digitVal c ≤ 9 := by
  simp only [isDigit, Bool.and_eq_true, decide_eq_true_eq] at h
  have h9 : '9'.toNat = 57 := rfl
  have h0 : '0'.toNat = 48 := rfl
  unfold digitVal
  omega

theorem foldl_digits_lt (ds : Str) (n : Nat) (h : ds.all isDigit = true) :
    ds.foldl (fun n c => n * 10 + digitVal c) n < (n + 1) * 10 ^ ds.length := by
  induction ds generalizing n with
  | nil => simp
  | cons c cs ih =>
    simp only [List.all_cons, Bool.and_eq_true] at h
    have hd := digitVal_le c h.1
    have := ih (n * 10 + digitVal c) h.2
    simp only [List.foldl_cons, List.length_cons]
    calc _ < (n * 10 + digitVal c + 1) * 10 ^ cs.length := this
      _ ≤ ((n + 1) * 10) * 10 ^ cs.length := Nat.mul_le_mul_right _ (by omega)
      _ = (n + 1) * 10 ^ (cs.length + 1) := by ring

theorem digitsValue_lt (ds : Str) (k : Nat) (h : ds.all isDigit = true) (hlen : ds.length ≤ k) :
    digitsValue ds < 10 ^ k := by
  have := foldl_digits_lt ds 0 h
  simp only [Nat.zero_add, Nat.one_mul] at this
  exact lt_of_lt_of_le this (Nat.pow_le_pow_right (by norm_num) hlen)

/-- A decimal integer of fewer than 19 bytes fits the 64-bit `int`. -/
theorem decimal_short (t : Str) (hd : isDecimalInteger t = true) (hlen : byteLen t < 19) :
    -2 ^ 63 < decimalValue t ∧ decimalValue t < 2 ^ 63 := by
  have hl := length_le_byteLen t
  cases t with
  | nil => simp [isDecimalInteger] at hd
  | cons c cs =>
    simp only [List.length_cons] at hl
    by_cases hs : c = '+' ∨ c = '-'
    · have hcs : cs ≠ [] ∧ cs.all isDigit = true := by
        simpa [isDecimalInteger, hs] using hd
      have hv := digitsValue_lt cs 18 hcs.2 (by omega)
      have hv2 : (digitsValue cs : Int) < 10 ^ 18 := by exact_mod_cast hv
      rcases hs with hs | hs <;> subst hs <;> simp only [decimalValue] <;> simp <;> omega
    · have hall : (c :: cs).all isDigit = true := by
        simpa [isDecimalInteger, hs] using hd
      have hm : ¬ c = '-' := fun h => hs (Or.inr h)
      have hp : ¬ c = '+' := fun h => hs (Or.inl h)
      have hv := digitsValue_lt (c :: cs) 18 hall (by simp only [List.length_cons]; omega)
      have hv2 : (digitsValue (c :: cs) : Int) < 10 ^ 18 := by exact_mod_cast hv
      simp only [decimalValue, hm, hp, if_false]
      omega

theorem parseUintLoop_overflow (ds : Str) (n : Nat) (h : ds.all isDigit = true)
    (hn : n ≤ maxUint64) (hv : maxUint64 < ds.foldl (fun n c => n * 10 + digitVal c) n) :
    parseUintLoop maxUint64 ds n = (maxUint64, some .ErrRange) := by
  induction ds generalizing n with
  | nil => simp at hv; omega
  | cons c cs ih =>
    simp only [List.all_cons, Bool.and_eq_true] at h
    simp only [List.foldl_cons] at hv
    unfold parseUintLoop
    simp only [h.1, Bool.not_true, Bool.false_eq_true, if_false]
    split_ifs with h1 h2
    · rfl
    · rfl
    · exact ih _ h.2 (by push_neg at h2; exact h2.1) hv

/-- What `ParseUint` returns on a string of decimal digits: the number, or
the largest `uint64` with a range error when the number is beyond it. -/
theorem ParseUint10_digits (ds : Str) (hne : ds ≠ []) (h : ds.all isDigit = true) :
    (digitsValue ds ≤ maxUint64 ∧ ParseUint10 ds intSize = (digitsValue ds, none)) ∨
    (maxUint64 < digitsValue ds ∧ ParseUint10 ds intSize = (maxUint64, some .ErrRange)) := by
  unfold ParseUint10
  rw [if_neg hne]
  have hmax : 2 ^ intSize - 1 = maxUint64 := rfl
  rw [hmax]
  by_cases hle : digitsValue ds ≤ maxUint64
  · left
    exact ⟨hle, parseUintLoop_digits maxUint64 ds 0 h (le_refl _) hle⟩
  · right
    push_neg at hle
    exact ⟨hle, parseUintLoop_overflow ds 0 h (Nat.zero_le _) hle⟩


/-- The value `Atoi` returns with a range error: the smallest `int` for a
string with a minus sign, the largest `int` otherwise. -/
theorem Atoi_range_sign (t : Str) (h : (Atoi t).2 = some .ErrRange) :
    (Atoi t).1 = if t.head? = some '-' then -2 ^ 63 else 2 ^ 63 - 1 := by
  cases t with
  | nil => simp [Atoi, byteLen, ParseInt10] at h
  | cons c cs =>
    simp only [List.head?_cons, Option.some.injEq]
    unfold Atoi at h ⊢
    by_cases hlen : 0 < byteLen (c :: cs) ∧ byteLen (c :: cs) < 19
    · rw [if_pos hlen] at h
      simp only at h
      split_ifs at h <;> first
        | (simp at h)
        | (generalize atoiFast _ 0 = r at h; cases r <;> simp at h)
    · rw [if_neg hlen] at h ⊢
      unfold ParseInt10 at h ⊢
      simp only at h ⊢
      generalize ParseUint10 (if c == '+' ∨ c == '-' then cs else c :: cs) intSize = pu at h ⊢
      obtain ⟨un, err⟩ := pu
      simp only at h ⊢
      by_cases hc : c = '-'
      · subst hc
        split_ifs at h ⊢ <;> simp_all [intSize]
      · have hb : (c == '-') = false := by simpa using hc
        simp only [hb, hc, if_false] at h ⊢
        split_ifs at h ⊢ <;> simp_all [intSize]

/-- A decimal integer above the 64-bit `int` range: `Atoi` returns the
largest `int` with a range error. -/
theorem Atoi_decimal_above (t : Str) (hd : isDecimalInteger t = true)
    (hhi : 2 ^ 63 ≤ decimalValue t) : Atoi t = (2 ^ 63 - 1, some .ErrRange) := by
  have hlong : ¬ (0 < byteLen t ∧ byteLen t < 19) := by
    rintro ⟨_, hl⟩
    have := (decimal_short t hd hl).2
    omega
  unfold Atoi
  rw [if_neg hlong]
  cases t with
  | nil => simp [isDecimalInteger] at hd
  | cons c cs =>
    unfold ParseInt10
    simp only
    by_cases hs : c = '+' ∨ c = '-'
    · have hcs : cs ≠ [] ∧ cs.all isDigit = true := by
        simpa [isDecimalInteger, hs] using hd
      have hb : (c == '+') = true ∨ (c == '-') = true := by
        rcases hs with hs | hs <;> simp [hs]
      rw [if_pos hb]
      rcases hs with hs | hs
      · subst hs
        have hval : decimalValue ('+' :: cs) = (digitsValue cs : Int) := by
          simp [decimalValue]
        rw [hval] at hhi
        have hge : 2 ^ 63 ≤ digitsValue cs := by exact_mod_cast hhi
        rcases ParseUint10_digits cs hcs.1 hcs.2 with ⟨_, hpu⟩ | ⟨_, hpu⟩
        · rw [hpu]
          simp [intSize]
          omega
        · rw [hpu]
          simp [intSize, maxUint64]
      · subst hs
        have hval : decimalValue ('-' :: cs) = -(digitsValue cs : Int) := by
          simp [decimalValue]
        rw [hval] at hhi
        have : (0 : Int) ≤ (digitsValue cs : Int) := Int.natCast_nonneg _
        omega
    · have hall : (c :: cs).all isDigit = true := by
        simpa [isDecimalInteger, hs] using hd
      have hb : ¬ ((c == '+') = true ∨ (c == '-') = true) := by
        simpa using hs
      have hm : ¬ c = '-' := fun h => hs (Or.inr h)
      have hp : ¬ c = '+' := fun h => hs (Or.inl h)
      have hval : decimalValue (c :: cs) = (digitsValue (c :: cs) : Int) := by
        simp [decimalValue, hm, hp]
      rw [hval] at hhi
      have hge : 2 ^ 63 ≤ digitsValue (c :: cs) := by exact_mod_cast hhi
      rw [if_neg hb]
      rcases ParseUint10_digits (c :: cs) (List.cons_ne_nil c cs) hall with ⟨_, hpu⟩ | ⟨_, hpu⟩
      · rw [hpu]
        simp [intSize, hm]
        omega
      · rw [hpu]
        simp [intSize, maxUint64, hm]

/-- A decimal integer below the 64-bit `int` range: `Atoi` returns the
smallest `int` with a range error. -/
theorem Atoi_decimal_below (t : Str) (hd : isDecimalInteger t = true)
    (hlo : decimalValue t < -2 ^ 63) : Atoi t = (-2 ^ 63, some .ErrRange) := by
  have hlong : ¬ (0 < byteLen t ∧ byteLen t < 19) := by
    rintro ⟨_, hl⟩
    have := (decimal_short t hd hl).1
    omega
  unfold Atoi
  rw [if_neg hlong]
  cases t with
  | nil => simp [isDecimalInteger] at hd
  | cons c cs =>
    unfold ParseInt10
    simp only
    by_cases hs : c = '+' ∨ c = '-'
    · have hcs : cs ≠ [] ∧ cs.all isDigit = true := by
        simpa [isDecimalInteger, hs] using hd
      have hb : (c == '+') = true ∨ (c == '-') = true := by
        rcases hs with hs | hs <;> simp [hs]
      rw [if_pos hb]
      rcases hs with hs | hs
      · subst hs
        have hval : decimalValue ('+' :: cs) = (digitsValue cs : Int) := by
          simp [decimalValue]
        rw [hval] at hlo
        have : (0 : Int) ≤ (digitsValue cs : Int) := Int.natCast_nonneg _
        omega
      · subst hs
        have hval : decimalValue ('-' :: cs) = -(digitsValue cs : Int) := by
          simp [decimalValue]
        rw [hval] at hlo
        have hge : 2 ^ 63 < digitsValue cs := by
          have : (2 ^ 63 : Int) < (digitsValue cs : Int) := by omega
          exact_mod_cast this
        rcases ParseUint10_digits cs hcs.1 hcs.2 with ⟨_, hpu⟩ | ⟨_, hpu⟩
        · rw [hpu]
          simp [intSize]
          omega
        · rw [hpu]
          simp [intSize, maxUint64]
    · have hm : ¬ c = '-' := fun h => hs (Or.inr h)
      have hp : ¬ c = '+' := fun h => hs (Or.inl h)
      have hval : decimalValue (c :: cs) = (digitsValue (c :: cs) : Int) := by
        simp [decimalValue, hm, hp]
      rw [hval] at hlo
      have : (0 : Int) ≤ (digitsValue (c :: cs) : Int) := Int.natCast_nonneg _
      omega

/-! ## C8, C9: the identifiers in the file name -/

theorem identifiers_eq (fileName t1 t3 : Str)
    (h1 : (tokens fileName)[1]? = some t1) (h3 : (tokens fileName)[3]? = some t3) :
    identifiers fileName = some ((Atoi t1).1, (Atoi t3).1) := by
  unfold tokens at h1 h3
  unfold identifiers
  simp only [h1, h3]

theorem loadObjects_cons (env : Env) (fileName : Str) (rest : List Str) (objects : List object)
    (label obj : Int) (ev : List Event) (c : Centroid)
    (hid : identifiers fileName = some (label, obj))
    (hc : getCentroid (env.readFile ("/tmp/objects/".toList ++ fileName)) = (ev, .ok c)) :
    (loadObjects env (fileName :: rest) objects).2 =
      (loadObjects env rest (objects ++ [⟨label, obj, c⟩])).2 := by
  simp only [loadObjects, hid, hc]

/-- C8, the claim as stated fails: in `label_99999999999999999999_object_2.txt`
tokens 1 and 3 are decimal integers, and the integer value of token 1 is
99999999999999999999; it does not fit the 64-bit `int`, `Atoi` returns the
largest `int` with a range error, the error is dropped, and the label is
9223372036854775807. -/
theorem identifiers_decimal_counterexample :
    (tokens "label_99999999999999999999_object_2.txt".toList)[1]? =
      some "99999999999999999999".toList ∧
    (tokens "label_99999999999999999999_object_2.txt".toList)[3]? = some "2".toList ∧
    isDecimalInteger "99999999999999999999".toList = true ∧
    isDecimalInteger "2".toList = true ∧
    decimalValue "99999999999999999999".toList = 99999999999999999999 ∧
    identifiers "label_99999999999999999999_object_2.txt".toList =
      some (9223372036854775807, 2) := by
  refine ⟨by decide, by decide, by decide, by decide, by decide, by decide⟩

/-- C8 (amended): for every file name that tokenizes on `_`, `.` and space
(empty tokens dropped) into at least four tokens where token 1 and token 3
are decimal integers whose values fit the 64-bit `int`, `main` sets the
label to the integer value of token 1 and the object identifier to the
integer value of token 3, and appends the object with these identifiers to
the collection. -/
theorem identifiers_decimal (fileName t1 t3 : Str)
    (h1 : (tokens fileName)[1]? = some t1) (h3 : (tokens fileName)[3]? = some t3)
    (d1 : isDecimalInteger t1 = true) (d3 : isDecimalInteger t3 = true)
    (r1 : -2 ^ 63 ≤ decimalValue t1 ∧ decimalValue t1 < 2 ^ 63)
    (r3 : -2 ^ 63 ≤ decimalValue t3 ∧ decimalValue t3 < 2 ^ 63) :
    identifiers fileName = some (decimalValue t1, decimalValue t3) ∧
    ∀ (env : Env) (rest : List Str) (objects : List object) (ev : List Event) (c : Centroid),
      getCentroid (env.readFile ("/tmp/objects/".toList ++ fileName)) = (ev, .ok c) →
      (loadObjects env (fileName :: rest) objects).2 =
        (loadObjects env rest (objects ++ [⟨decimalValue t1, decimalValue t3, c⟩])).2 := by
  have hid : identifiers fileName = some (decimalValue t1, decimalValue t3) := by
    rw [identifiers_eq fileName t1 t3 h1 h3, Atoi_decimal t1 d1 r1.1 r1.2,
      Atoi_decimal t3 d3 r3.1 r3.2]
  exact ⟨hid, fun env rest objects ev c hc =>
    loadObjects_cons env fileName rest objects _ _ ev c hid hc⟩

/-- C8, the instance of the specification: `label_1_object_2.txt` gives the
label 1 and the object identifier 2. -/
theorem identifiers_decimal_witness :
    (identifiers "label_1_object_2.txt".toList =
        some (decimalValue "1".toList, decimalValue "2".toList) ∧
      ∀ (env : Env) (rest : List Str) (objects : List object) (ev : List Event) (c : Centroid),
        getCentroid (env.readFile ("/tmp/objects/".toList ++ "label_1_object_2.txt".toList)) =
          (ev, .ok c) →
        (loadObjects env ("label_1_object_2.txt".toList :: rest) objects).2 =
          (loadObjects env rest
            (objects ++ [⟨decimalValue "1".toList, decimalValue "2".toList, c⟩])).2) ∧
    decimalValue "1".toList = 1 ∧ decimalValue "2".toList = 2 :=
  ⟨identifiers_decimal "label_1_object_2.txt".toList "1".toList "2".toList
      (by decide) (by decide) (by decide) (by decide) (by decide) (by decide),
    by decide, by decide⟩

/-- C9, the claim as stated fails: in `label_1_object_99999999999999999999.txt`
token 3 is a decimal number out of the integer range, so `Atoi` fails on it
with a range error; the value it returns with that error is the largest
`int`, and the object identifier is 9223372036854775807, not zero. -/
theorem identifiers_parse_failure_counterexample :
    (tokens "label_1_object_99999999999999999999.txt".toList)[3]? =
      some "99999999999999999999".toList ∧
    (Atoi "99999999999999999999".toList).2 = some .ErrRange ∧
    identifiers "label_1_object_99999999999999999999.txt".toList =
      some (1, 9223372036854775807) ∧
    (9223372036854775807 : Int) ≠ 0 := by
  refine ⟨by decide, by decide, by decide, by decide⟩

/-- C9 (amended): for every file name with at least four tokens, the parse
errors of `Atoi` are dropped and processing continues: the object with the
returned label and object identifier is appended to the collection.  When
token 1 (resp. token 3) fails to parse with a syntax error (text that is not
a decimal integer), the label (resp. object identifier) is zero; when it
fails with a range error, as every decimal integer out of the range of the
64-bit `int` does, it is the nearest `int`: the largest `int` 2^63 - 1 for a
number above the range (a token without a minus sign), the smallest `int`
-2^63 for a number below it (a token with a minus sign). -/
theorem identifiers_parse_failure (fileName t1 t3 : Str)
    (h1 : (tokens fileName)[1]? = some t1) (h3 : (tokens fileName)[3]? = some t3) :
    ∃ label obj : Int, identifiers fileName = some (label, obj) ∧
      ((Atoi t1).2 = some .ErrSyntax → label = 0) ∧
      ((Atoi t1).2 = some .ErrRange →
        label = if t1.head? = some '-' then -2 ^ 63 else 2 ^ 63 - 1) ∧
      (isDecimalInteger t1 = true → 2 ^ 63 ≤ decimalValue t1 →
        (Atoi t1).2 = some .ErrRange ∧ label = 2 ^ 63 - 1) ∧
      (isDecimalInteger t1 = true → decimalValue t1 < -2 ^ 63 →
        (Atoi t1).2 = some .ErrRange ∧ label = -2 ^ 63) ∧
      ((Atoi t3).2 = some .ErrSyntax → obj = 0) ∧
      ((Atoi t3).2 = some .ErrRange →
        obj = if t3.head? = some '-' then -2 ^ 63 else 2 ^ 63 - 1) ∧
      (isDecimalInteger t3 = true → 2 ^ 63 ≤ decimalValue t3 →
        (Atoi t3).2 = some .ErrRange ∧ obj = 2 ^ 63 - 1) ∧
      (isDecimalInteger t3 = true → decimalValue t3 < -2 ^ 63 →
        (Atoi t3).2 = some .ErrRange ∧ obj = -2 ^ 63) ∧
      ∀ (env : Env) (rest : List Str) (objects : List object) (ev : List Event) (c : Centroid),
        getCentroid (env.readFile ("/tmp/objects/".toList ++ fileName)) = (ev, .ok c) →
        (loadObjects env (fileName :: rest) objects).2 =
          (loadObjects env rest (objects ++ [⟨label, obj, c⟩])).2 :=
  ⟨(Atoi t1).1, (Atoi t3).1, identifiers_eq fileName t1 t3 h1 h3,
    Atoi_syntax_value t1, Atoi_range_sign t1,
    fun hd hv => by rw [Atoi_decimal_above t1 hd hv]; exact ⟨rfl, rfl⟩,
    fun hd hv => by rw [Atoi_decimal_below t1 hd hv]; exact ⟨rfl, rfl⟩,
    Atoi_syntax_value t3, Atoi_range_sign t3,
    fun hd hv => by rw [Atoi_decimal_above t3 hd hv]; exact ⟨rfl, rfl⟩,
    fun hd hv => by rw [Atoi_decimal_below t3 hd hv]; exact ⟨rfl, rfl⟩,
    fun env rest objects ev c hc =>
      loadObjects_cons env fileName rest objects _ _ ev c (identifiers_eq fileName t1 t3 h1 h3) hc⟩

/-- C9, an instance: in `label_x_object_-99999999999999999999.txt` token 1 is
a syntax error and gives the label 0, token 3 is a decimal integer below the
`int` range and gives the object identifier -2^63; a token 3 above the range
gives 2^63 - 1. -/
theorem identifiers_parse_failure_witness :
    (∃ label obj : Int,
      identifiers "label_x_object_-99999999999999999999.txt".toList = some (label, obj) ∧
      ((Atoi "x".toList).2 = some .ErrSyntax → label = 0) ∧
      ((Atoi "x".toList).2 = some .ErrRange →
        label = if "x".toList.head? = some '-' then -2 ^ 63 else 2 ^ 63 - 1) ∧
      (isDecimalInteger "x".toList = true → 2 ^ 63 ≤ decimalValue "x".toList →
        (Atoi "x".toList).2 = some .ErrRange ∧ label = 2 ^ 63 - 1) ∧
      (isDecimalInteger "x".toList = true → decimalValue "x".toList < -2 ^ 63 →
        (Atoi "x".toList).2 = some .ErrRange ∧ label = -2 ^ 63) ∧
      ((Atoi "-99999999999999999999".toList).2 = some .ErrSyntax → obj = 0) ∧
      ((Atoi "-99999999999999999999".toList).2 = some .ErrRange →
        obj = if "-99999999999999999999".toList.head? = some '-' then -2 ^ 63 else 2 ^ 63 - 1) ∧
      (isDecimalInteger "-99999999999999999999".toList = true →
        2 ^ 63 ≤ decimalValue "-99999999999999999999".toList →
        (Atoi "-99999999999999999999".toList).2 = some .ErrRange ∧ obj = 2 ^ 63 - 1) ∧
      (isDecimalInteger "-99999999999999999999".toList = true →
        decimalValue "-99999999999999999999".toList < -2 ^ 63 →
        (Atoi "-99999999999999999999".toList).2 = some .ErrRange ∧ obj = -2 ^ 63) ∧
      ∀ (env : Env) (rest : List Str) (objects : List object) (ev : List Event) (c : Centroid),
        getCentroid (env.readFile ("/tmp/objects/".toList ++
            "label_x_object_-99999999999999999999.txt".toList)) = (ev, .ok c) →
        (loadObjects env ("label_x_object_-99999999999999999999.txt".toList :: rest) objects).2 =
          (loadObjects env rest (objects ++ [⟨label, obj, c⟩])).2) ∧
    (Atoi "x".toList).2 = some .ErrSyntax ∧
    isDecimalInteger "-99999999999999999999".toList = true ∧
    decimalValue "-99999999999999999999".toList < -2 ^ 63 ∧
    (Atoi "-99999999999999999999".toList).2 = some .ErrRange ∧
    identifiers "label_x_object_-99999999999999999999.txt".toList =
      some (0, -9223372036854775808) ∧
    identifiers "label_x_object_99999999999999999999.txt".toList =
      some (0, 9223372036854775807) :=
  ⟨identifiers_parse_failure "label_x_object_-99999999999999999999.txt".toList "x".toList
      "-99999999999999999999".toList (by decide) (by decide),
    by decide, by decide, by decide, by decide, by decide, by decide⟩

/-! ## The output stage -/

theorem writeAll_ok (records : List Record) (k : Nat) :
    writeAll (fun _ => false) records k = (records.map Event.write, none) := by
  induction records generalizing k with
  | nil => rfl
  | cons r rest ih => simp [writeAll, ih]

/-- When the directory is listed, every file is loaded, the output file
opens and no write fails, `main` writes the records of the pairwise loop, in
order, between opening and closing the output file, and returns. -/
theorem main_ok {fz : Fusion} (names : List Str) (readFile : Str → Except Str Str) (ev : List Event)
    (objects : List object)
    (hload : loadObjects ⟨.ok names, readFile, .ok (), fun _ => false⟩ names [] =
      (ev, .ok objects)) :
    main fz ⟨.ok names, readFile, .ok (), fun _ => false⟩ =
      (ev ++ [.removeOutput, .openOutput] ++ (pairLoop fz objects).map Event.write ++
        [.closeOutput], none) := by
  simp only [main, hload, writeAll_ok, List.nil_append]

/-! ## C10: the unreadable input directory -/

/-- C10, what the code does: when `ioutil.ReadDir` fails, `main` prints the
error and goes on with no files: it removes the output file, opens it anew,
writes nothing, closes it, and returns with exit status 0.  The error branch
of `getCentroid` prints and calls `os.Exit(1)`; this one only prints. -/
theorem main_readDir_error (fz : Fusion) (err : Str) (readFile : Str → Except Str Str)
    (writeFails : Nat → Bool) :
    main fz ⟨.error err, readFile, .ok (), writeFails⟩ =
      ([.print (.readDirError err), .removeOutput, .openOutput, .closeOutput], none) ∧
    getCentroid (.error err) = ([.print (.inputFileMissing err)], .stop (.exit 1)) := by
  constructor <;> rfl

/-! ## Exact arithmetic on a grid -/

theorem splitP_no_sep (p : Char → Bool) (f : Str) (h : ∀ c ∈ f, p c = false) :
    splitP p f = [f] := by
  induction f with
  | nil => rfl
  | cons c cs ih =>
    have hc : p c = false := h c (List.mem_cons_self _ _)
    have ih2 := ih (fun x hx => h x (List.mem_cons_of_mem _ hx))
    simp [splitP, hc, ih2]

theorem splitP_append_sep (p : Char → Bool) (f s : Str) (sep : Char)
    (h : ∀ c ∈ f, p c = false) (hsep : p sep = true) :
    splitP p (f ++ sep :: s) = f :: splitP p s := by
  induction f with
  | nil => simp [splitP, hsep]
  | cons c cs ih =>
    have hc : p c = false := h c (List.mem_cons_self _ _)
    have ih2 := ih (fun x hx => h x (List.mem_cons_of_mem _ hx))
    simp [splitP, hc, ih2]

/-- Splitting on the single space gives back fields that were joined by
single spaces and hold no space. -/
theorem Split_joinFields (fields : List Str) (hne : fields ≠ [])
    (h : ∀ f ∈ fields, ' ' ∉ f) : Split (joinFields fields) ' ' = fields := by
  unfold Split
  induction fields with
  | nil => exact absurd rfl hne
  | cons f rest ih =>
    have hf : ∀ c ∈ f, (fun c => c == ' ') c = false := by
      intro c hc
      have : ' ' ∉ f := h f (List.mem_cons_self _ _)
      simp only [beq_eq_false_iff_ne, ne_eq]
      intro hc2
      exact this (hc2 ▸ hc)
    cases rest with
    | nil => simpa [joinFields] using splitP_no_sep _ f hf
    | cons g rest2 =>
      have ih2 := ih (by simp) (fun x hx => h x (List.mem_cons_of_mem _ hx))
      rw [joinFields, splitP_append_sep _ f _ ' ' hf (by simp), ih2]

theorem joinFields_ne_nil (fields : List Str) (h : 2 ≤ fields.length) :
    joinFields fields ≠ [] := by
  match fields, h with
  | f :: g :: rest, _ => simp [joinFields]

/-- C12, the claim as stated fails.  The line `a  b 1 2 3`, with a run of two
spaces, has the whitespace-separated fields `a b 1 2 3`; split on the single
space it has an empty second field, so `getCentroid` takes `b`, `1`, `2` as
the coordinates and returns (0, 1, 2), where the same fields separated by
single spaces give (1, 2, 3).  The same fields separated by tabs are one
single field: `args[2]` is out of range and `getCentroid` panics. -/
theorem getCentroid_whitespace_counterexample :
    wsFields "a  b 1 2 3".toList =
      ["a".toList, "b".toList, "1".toList, "2".toList, "3".toList] ∧
    Split "a  b 1 2 3".toList ' ' =
      ["a".toList, [], "b".toList, "1".toList, "2".toList, "3".toList] ∧
    (addLine "a  b 1 2 3".toList ⟨Flt.zero, Flt.zero, Flt.zero⟩).2 =
      some ⟨Flt.zero, Flt.ofNat binary64 1, Flt.ofNat binary64 2⟩ ∧
    (addLine (joinFields (wsFields "a  b 1 2 3".toList)) ⟨Flt.zero, Flt.zero, Flt.zero⟩).2 =
      some ⟨Flt.ofNat binary64 1, Flt.ofNat binary64 2, Flt.ofNat binary64 3⟩ ∧
    (getCentroid (.ok "a  b 1 2 3".toList)).2 =
      .ok ⟨Flt.zero, Flt.ofNat binary32 1, Flt.ofNat binary32 2⟩ ∧
    (getCentroid (.ok (joinFields (wsFields "a  b 1 2 3".toList)))).2 =
      .ok ⟨Flt.ofNat binary32 1, Flt.ofNat binary32 2, Flt.ofNat binary32 3⟩ ∧
    (getCentroid (.ok "a  b 1 2 3".toList)).2 ≠
      (getCentroid (.ok (joinFields (wsFields "a  b 1 2 3".toList)))).2 ∧
    wsFields "a\tb\t1\t2\t3".toList =
      ["a".toList, "b".toList, "1".toList, "2".toList, "3".toList] ∧
    (addLine "a\tb\t1\t2\t3".toList ⟨Flt.zero, Flt.zero, Flt.zero⟩).2 = none ∧
    (getCentroid (.ok "a\tb\t1\t2\t3".toList)).2 = .stop .panic := by
  set_option maxRecDepth 100000 in
  refine ⟨by decide, by decide, by decide, by decide, by decide, by decide, by decide, by decide,
    by decide, by decide⟩

theorem rowSum_eq (rows : List (List Str)) (i : Nat)
    (h : ∀ r ∈ rows, Split (joinFields r) ' ' = r) :
    coordSum (rows.map joinFields) i = rowSum rows i := by
  unfold coordSum rowSum
  rw [List.map_map]
  congr 1
  apply List.map_congr_left
  intro r hr
  simp only [Function.comp, fieldValue, field, h r hr]

/-- C12 (amended): for every file content whose lines, once the content is
trimmed as `getCentroid` does before it splits, are each made of at least
five fields separated by single spaces (one space between consecutive fields,
no space inside a field; a field may be empty), `getCentroid` splits each
line back into these fields, skips the first two and takes the third, fourth
and fifth field of the line as the point's x, y and z: it returns the mean of
these points.  The line is split on the single space character only: each
space of a run of spaces separates a field, possibly empty, and a tab
separates nothing.  When the content neither begins nor ends with a space, a
newline or a carriage return, the lines are those of the content itself. -/
theorem getCentroid_single_space_fields (content : Str) (rows : List (List Str))
    (hlines : Split (Trim content cutset) '\n' = rows.map joinFields)
    (hrows : ∀ r ∈ rows, 5 ≤ r.length ∧ ∀ f ∈ r, ' ' ∉ f) :
    (∀ r ∈ rows, Split (joinFields r) ' ' = r) ∧
    (getCentroid (.ok content)).2 = .ok (rowsMean rows) ∧
    ((∀ c, content.head? = some c → c ∉ cutset) →
      (∀ c, content.getLast? = some c → c ∉ cutset) →
      Split content '\n' = rows.map joinFields) := by
  have hsplit : ∀ r ∈ rows, Split (joinFields r) ' ' = r := by
    intro r hr
    have hne : r ≠ [] := by
      intro h0
      have := (hrows r hr).1
      rw [h0] at this
      simp at this
    exact Split_joinFields r hne (hrows r hr).2
  refine ⟨hsplit, ?_, fun h1 h2 => by rw [← hlines, Trim_eq_self content h1 h2]⟩
  have hfive : ∀ l ∈ Split (Trim content cutset) '\n', l ≠ [] → 5 ≤ (Split l ' ').length := by
    intro l hl _
    rw [hlines, List.mem_map] at hl
    obtain ⟨r, hr, rfl⟩ := hl
    rw [hsplit r hr]
    exact (hrows r hr).1
  have hfil : (rows.map joinFields).filter (fun l => !l.isEmpty) = rows.map joinFields := by
    rw [List.filter_eq_self]
    intro l hl
    rw [List.mem_map] at hl
    obtain ⟨r, hr, rfl⟩ := hl
    have := joinFields_ne_nil r (by have := (hrows r hr).1; omega)
    cases hj : joinFields r with
    | nil => exact absurd hj this
    | cons c cs => rfl
  rw [getCentroid_value content hfive, hlines, hfil]
  simp only [sumsOver, rowsMean, rowSum_eq rows _ hsplit, List.length_map]

/-- C12, an instance: the lines `a b 1 2 3` and `c  d 4 5`.  The second line,
with its run of two spaces, is the five fields `c`, the empty field, `d`, `4`,
`5`: its point is (0, 4, 5), the field `d` failing to parse, and the centroid
is (1/2, 3, 4). -/
theorem getCentroid_single_space_fields_witness :
    ((∀ r ∈ [["a".toList, "b".toList, "1".toList, "2".toList, "3".toList],
          ["c".toList, [], "d".toList, "4".toList, "5".toList]],
        Split (joinFields r) ' ' = r) ∧
      (getCentroid (.ok "a b 1 2 3\nc  d 4 5".toList)).2 =
        .ok (rowsMean [["a".toList, "b".toList, "1".toList, "2".toList, "3".toList],
          ["c".toList, [], "d".toList, "4".toList, "5".toList]]) ∧
      ((∀ c, "a b 1 2 3\nc  d 4 5".toList.head? = some c → c ∉ cutset) →
        (∀ c, "a b 1 2 3\nc  d 4 5".toList.getLast? = some c → c ∉ cutset) →
        Split "a b 1 2 3\nc  d 4 5".toList '\n' =
          [["a".toList, "b".toList, "1".toList, "2".toList, "3".toList],
            ["c".toList, [], "d".toList, "4".toList, "5".toList]].map joinFields)) ∧
    rowsMean [["a".toList, "b".toList, "1".toList, "2".toList, "3".toList],
        ["c".toList, [], "d".toList, "4".toList, "5".toList]] =
      ⟨.fin false 8388608 (-24), Flt.ofNat binary32 3, Flt.ofNat binary32 4⟩ ∧
    joinFields ["c".toList, [], "d".toList, "4".toList, "5".toList] = "c  d 4 5".toList :=
  ⟨getCentroid_single_space_fields "a b 1 2 3\nc  d 4 5".toList
      [["a".toList, "b".toList, "1".toList, "2".toList, "3".toList],
        ["c".toList, [], "d".toList, "4".toList, "5".toList]]
      (by decide) (by decide),
    by set_option maxRecDepth 100000 in decide, by decide⟩

/-! ## C13: the order and the content of the output -/

theorem innerLoop_eq_flatMap {fz : Fusion} (a : object) (l : List object) :
    innerLoop fz a l = l.flatMap (emitPair fz a) := by
  induction l with
  | nil => rfl
  | cons b l ih => simp [innerLoop, ih]

theorem outerLoop_eq_flatMap {fz : Fusion} (objects l : List object) :
    outerLoop fz objects l = l.flatMap (fun a => innerLoop fz a objects) := by
  induction l with
  | nil => rfl
  | cons a l ih => simp [outerLoop, ih]

/-- Running through the indices of a list in ascending order is running
through the list. -/
theorem range_flatMap_getElem {α β : Type} (l : List α) (f : α → List β) :
    ((List.range l.length).flatMap fun i => (l[i]?).elim [] f) = l.flatMap f := by
  induction l with
  | nil => rfl
  | cons a l ih =>
    rw [List.length_cons, List.range_succ_eq_map, List.flatMap_cons, List.flatMap_map,
      List.flatMap_cons]
    simp only [List.getElem?_cons_zero, Nat.succ_eq_add_one, List.getElem?_cons_succ,
      Option.elim_some]
    rw [ih]

theorem recordAt_eq {fz : Fusion} (objects : List object) (i j : Nat) :
    recordAt fz objects i j =
      (objects[i]?).elim [] (fun a => (objects[j]?).elim [] (emitPair fz a)) := by
  unfold recordAt emitPair
  cases objects[i]? with
  | none => rfl
  | some a =>
    cases objects[j]? with
    | none => rfl
    | some b =>
      simp only [Option.elim_some]
      by_cases h : a.object = b.object <;> simp [h]

theorem pairLoop_eq_rowMajor {fz : Fusion} (objects : List object) : pairLoop fz objects = rowMajor fz objects := by
  unfold pairLoop rowMajor
  rw [outerLoop_eq_flatMap]
  have hinner : ∀ i, ((List.range objects.length).flatMap fun j => recordAt fz objects i j) =
      (objects[i]?).elim [] (fun a => innerLoop fz a objects) := by
    intro i
    simp only [recordAt_eq]
    cases objects[i]? with
    | none => simp
    | some a =>
      simp only [Option.elim_some]
      rw [innerLoop_eq_flatMap]
      exact range_flatMap_getElem objects (emitPair fz a)
  simp only [hinner]
  exact (range_flatMap_getElem objects (fun a => innerLoop fz a objects)).symm

theorem writtenLines_append (showFloat : F32 → Str) (e1 e2 : List Event) :
    writtenLines showFloat (e1 ++ e2) = writtenLines showFloat e1 ++ writtenLines showFloat e2 := by
  induction e1 with
  | nil => rfl
  | cons e rest ih => cases e <;> simp [writtenLines, ih]

theorem writtenLines_writes (showFloat : F32 → Str) (records : List Record) :
    writtenLines showFloat (records.map Event.write) = records.map (formatLine showFloat) := by
  induction records with
  | nil => rfl
  | cons r rest ih => simp [writtenLines, ih]

theorem writtenLines_onlyPrints (showFloat : F32 → Str) (evs : List Event)
    (h : onlyPrints evs) : writtenLines showFloat evs = [] := by
  induction evs with
  | nil => rfl
  | cons e rest ih =>
    obtain ⟨m, hm⟩ := h e (List.mem_cons_self _ _)
    subst hm
    simp only [writtenLines]
    exact ih (fun x hx => h x (List.mem_cons_of_mem _ hx))

theorem onlyPrints_append {e1 e2 : List Event} (h1 : onlyPrints e1) (h2 : onlyPrints e2) :
    onlyPrints (e1 ++ e2) := by
  intro e he
  rcases List.mem_append.mp he with h | h
  · exact h1 e h
  · exact h2 e h

theorem onlyPrints_nil : onlyPrints [] := by
  intro e he
  simp at he

theorem onlyPrints_single (m : Msg) : onlyPrints [.print m] := by
  intro e he
  simp at he
  exact ⟨m, he⟩

theorem onlyPrints_parseField (f : Str) : onlyPrints (parseField f).1 := by
  unfold parseField
  split
  · exact onlyPrints_single _
  · exact onlyPrints_nil

theorem onlyPrints_addLine (l : Str) (acc : Sums) : onlyPrints (addLine l acc).1 := by
  unfold addLine
  split_ifs
  · exact onlyPrints_nil
  · simp only
    split
    · exact onlyPrints_nil
    · rename_i a0 _
      have h0 := onlyPrints_parseField a0
      generalize parseField a0 = p0 at h0
      obtain ⟨ev0, v0⟩ := p0
      simp only
      split
      · exact h0
      · rename_i a1 _
        have h1 := onlyPrints_parseField a1
        generalize parseField a1 = p1 at h1
        obtain ⟨ev1, v1⟩ := p1
        simp only
        split
        · exact onlyPrints_append h0 h1
        · rename_i a2 _
          have h2 := onlyPrints_parseField a2
          generalize parseField a2 = p2 at h2
          obtain ⟨ev2, v2⟩ := p2
          exact onlyPrints_append (onlyPrints_append h0 h1) h2

theorem onlyPrints_sumLines (lines : List Str) (acc : Sums) :
    onlyPrints (sumLines lines acc).1 := by
  induction lines generalizing acc with
  | nil => exact onlyPrints_nil
  | cons l rest ih =>
    unfold sumLines
    have hl := onlyPrints_addLine l acc
    generalize addLine l acc = al at hl
    obtain ⟨ev, r⟩ := al
    cases r with
    | none => exact hl
    | some acc1 => exact onlyPrints_append hl (ih acc1)

theorem onlyPrints_getCentroid (file : Except Str Str) : onlyPrints (getCentroid file).1 := by
  unfold getCentroid
  cases file with
  | error err => exact onlyPrints_single _
  | ok content =>
    simp only
    have hs := onlyPrints_sumLines (Split (Trim content " \n\r".toList) '\n')
      ⟨Flt.zero, Flt.zero, Flt.zero⟩
    generalize sumLines (Split (Trim content " \n\r".toList) '\n')
      ⟨Flt.zero, Flt.zero, Flt.zero⟩ = sl at hs
    obtain ⟨ev, r⟩ := sl
    cases r with
    | none => exact hs
    | some acc => exact onlyPrints_append hs (onlyPrints_single _)


theorem onlyPrints_loadObjects (env : Env) (names : List Str) (objects : List object) :
    onlyPrints (loadObjects env names objects).1 := by
  induction names generalizing objects with
  | nil => exact onlyPrints_nil
  | cons f rest ih =>
    rw [loadObjects]
    cases identifiers f with
    | none => exact onlyPrints_single _
    | some ids =>
      obtain ⟨label, obj⟩ := ids
      simp only
      have hg := onlyPrints_getCentroid (env.readFile ("/tmp/objects/".toList ++ f))
      generalize getCentroid (env.readFile ("/tmp/objects/".toList ++ f)) = gc at hg
      obtain ⟨ev1, r⟩ := gc
      cases r with
      | stop a => exact onlyPrints_append (onlyPrints_single _) hg
      | ok c =>
        exact onlyPrints_append (onlyPrints_append (onlyPrints_single _) hg) (ih _)

/-- C13: emission order and content.  For every object collection
o_0..o_(n-1) loaded by `main`, the records it writes (when the output file
opens and no write fails) are, in row-major order (outer index ascending, for
each the inner index ascending), the records (o_i.label, o_i.object,
o_j.label, o_j.object, distance(o_i, o_j)) of exactly the pairs (i, j) with
o_i.object != o_j.object, written between the opening and the closing of the
output file; each is serialized as its five fields separated by single spaces
and followed by a newline; nothing is deduplicated, sorted or pruned. -/
theorem main_emission_order (fz : Fusion) (names : List Str) (readFile : Str → Except Str Str)
    (showFloat : F32 → Str) (ev : List Event) (objects : List object)
    (hload : loadObjects ⟨.ok names, readFile, .ok (), fun _ => false⟩ names [] =
      (ev, .ok objects)) :
    pairLoop fz objects = rowMajor fz objects ∧
    main fz ⟨.ok names, readFile, .ok (), fun _ => false⟩ =
      (ev ++ [.removeOutput, .openOutput] ++ (rowMajor fz objects).map Event.write ++
        [.closeOutput], none) ∧
    writtenLines showFloat (main fz ⟨.ok names, readFile, .ok (), fun _ => false⟩).1 =
      (rowMajor fz objects).map (fun r =>
        joinFields [formatInt r.label1, formatInt r.object1, formatInt r.label2,
          formatInt r.object2, showFloat r.distance] ++ ['\n']) := by
  have hmain := @main_ok fz names readFile ev objects hload
  have hev : onlyPrints ev := by
    have := onlyPrints_loadObjects ⟨.ok names, readFile, .ok (), fun _ => false⟩ names []
    rw [hload] at this
    exact this
  refine ⟨pairLoop_eq_rowMajor objects, ?_, ?_⟩
  · rw [hmain, pairLoop_eq_rowMajor]
  · rw [hmain, pairLoop_eq_rowMajor]
    simp only [writtenLines_append, writtenLines_writes, writtenLines_onlyPrints showFloat ev hev,
      writtenLines, List.nil_append, List.append_nil]
    apply List.map_congr_left
    intro r _
    simp [formatLine, joinFields]


/-- C13, an instance: the directory of the two objects 2 and 3 of label 1 with
centroids (0, 0, 0) and (3, 4, 0) gives the two lines `1 2 1 3 d` and
`1 3 1 2 d`, in this order, `d` being the rendering of the distance 5. -/
theorem main_emission_order_witness :
    (∀ showFloat : F32 → Str,
      (pairLoop unfused sampleObjects = rowMajor unfused sampleObjects ∧
        main unfused ⟨.ok sampleNames, sampleRead, .ok (), fun _ => false⟩ =
          ((loadObjects ⟨.ok sampleNames, sampleRead, .ok (), fun _ => false⟩
              sampleNames []).1 ++
            [.removeOutput, .openOutput] ++ (rowMajor unfused sampleObjects).map Event.write ++
            [.closeOutput], none) ∧
        writtenLines showFloat (main unfused ⟨.ok sampleNames, sampleRead, .ok (), fun _ => false⟩).1 =
          (rowMajor unfused sampleObjects).map (fun r =>
            joinFields [formatInt r.label1, formatInt r.object1, formatInt r.label2,
              formatInt r.object2, showFloat r.distance] ++ ['\n'])) ∧
      writtenLines showFloat (main unfused ⟨.ok sampleNames, sampleRead, .ok (), fun _ => false⟩).1 =
        ["1 2 1 3 ".toList ++ showFloat (Flt.ofNat binary32 5) ++ ['\n'],
         "1 3 1 2 ".toList ++ showFloat (Flt.ofNat binary32 5) ++ ['\n']]) ∧
    rowMajor unfused sampleObjects =
      [⟨1, 2, 1, 3, Flt.ofNat binary32 5⟩, ⟨1, 3, 1, 2, Flt.ofNat binary32 5⟩] := by
  have hload : loadObjects ⟨.ok sampleNames, sampleRead, .ok (), fun _ => false⟩ sampleNames [] =
      ((loadObjects ⟨.ok sampleNames, sampleRead, .ok (), fun _ => false⟩ sampleNames []).1,
        .ok sampleObjects) :=
    Prod.ext rfl (by set_option maxRecDepth 100000 in decide)
  have hrow : rowMajor unfused sampleObjects =
      [⟨1, 2, 1, 3, Flt.ofNat binary32 5⟩, ⟨1, 3, 1, 2, Flt.ofNat binary32 5⟩] := by
    set_option maxRecDepth 100000 in decide
  refine ⟨fun showFloat => ?_, hrow⟩
  have hthm := main_emission_order unfused sampleNames sampleRead showFloat _ sampleObjects hload
  refine ⟨hthm, ?_⟩
  rw [hthm.2.2, hrow]
  rfl

/-! ## C14: interior blank lines -/

theorem length_countPoint_add_countBlank (lines : List Str) :
    lines.length = countPoint lines + countBlank lines := by
  unfold countPoint countBlank
  induction lines with
  | nil => rfl
  | cons l rest ih =>
    cases l with
    | nil => simp [List.filter_cons] at ih ⊢; omega
    | cons c cs => simp [List.filter_cons] at ih ⊢; omega

/-- C14, the claim as stated fails: the content made of the line
` 7 1 2 3 4`, an empty line and the line `a b 3 4 5` has k = 2 well-formed
point lines (the first has six single-space-separated fields, the first one
empty, and its fields 2, 3, 4 are the numbers 1, 2, 3) and b = 1 empty line
between them, so the coordinate sums 4, 6, 8 divided by k + b = 3 are
(4/3, 2, 8/3); but `getCentroid` trims the leading space of the content
before it splits, the fields of the first line move one place, and it
returns (5/3, 7/3, 3). -/
theorem getCentroid_interior_blank_lines_counterexample :
    Split " 7 1 2 3 4\n\na b 3 4 5".toList '\n' =
      [" 7 1 2 3 4".toList, [], "a b 3 4 5".toList] ∧
    pointLine " 7 1 2 3 4".toList = true ∧
    pointLine "a b 3 4 5".toList = true ∧
    countPoint (Split " 7 1 2 3 4\n\na b 3 4 5".toList '\n') = 2 ∧
    countBlank (Split " 7 1 2 3 4\n\na b 3 4 5".toList '\n') = 1 ∧
    sumsOver ((Split " 7 1 2 3 4\n\na b 3 4 5".toList '\n').filter (fun l => !l.isEmpty))
        (2 + 1) =
      ⟨.fin false 11184811 (-23), Flt.ofNat binary32 2, .fin false 11184811 (-22)⟩ ∧
    (getCentroid (.ok " 7 1 2 3 4\n\na b 3 4 5".toList)).2 =
      .ok ⟨.fin false 13981013 (-23), .fin false 9786709 (-22), Flt.ofNat binary32 3⟩ ∧
    (getCentroid (.ok " 7 1 2 3 4\n\na b 3 4 5".toList)).2 ≠
      .ok (sumsOver
        ((Split " 7 1 2 3 4\n\na b 3 4 5".toList '\n').filter (fun l => !l.isEmpty)) (2 + 1)) := by
  have h1 : sumsOver
      ((Split " 7 1 2 3 4\n\na b 3 4 5".toList '\n').filter (fun l => !l.isEmpty)) (2 + 1) =
      ⟨.fin false 11184811 (-23), Flt.ofNat binary32 2, .fin false 11184811 (-22)⟩ := by
    set_option maxRecDepth 100000 in decide
  have h2 : (getCentroid (.ok " 7 1 2 3 4\n\na b 3 4 5".toList)).2 =
      .ok ⟨.fin false 13981013 (-23), .fin false 9786709 (-22), Flt.ofNat binary32 3⟩ := by
    set_option maxRecDepth 100000 in decide
  refine ⟨by decide, by set_option maxRecDepth 100000 in decide,
    by set_option maxRecDepth 100000 in decide, by decide, by decide, h1, h2, ?_⟩
  rw [h1, h2]
  set_option maxRecDepth 100000 in decide

/-- C14 (amended): interior blank lines.  For every file content whose lines,
once the content is trimmed as `getCentroid` does before it splits, are k
well-formed point lines and b empty lines, the empty lines are skipped during
accumulation but counted in the denominator: `getCentroid` returns each
coordinate sum over the point lines divided by k + b, the length of the split
result, and not by k.  When the content neither begins nor ends with a space,
a newline or a carriage return, the lines are those of the content itself. -/
theorem getCentroid_interior_blank_lines (content : Str)
    (h : ∀ l ∈ Split (Trim content cutset) '\n', l = [] ∨ pointLine l = true) :
    (Split (Trim content cutset) '\n').length =
      countPoint (Split (Trim content cutset) '\n') +
        countBlank (Split (Trim content cutset) '\n') ∧
    (getCentroid (.ok content)).2 =
      .ok (sumsOver ((Split (Trim content cutset) '\n').filter (fun l => !l.isEmpty))
            (countPoint (Split (Trim content cutset) '\n') +
              countBlank (Split (Trim content cutset) '\n'))) ∧
    ((∀ c, content.head? = some c → c ∉ cutset) →
      (∀ c, content.getLast? = some c → c ∉ cutset) →
      Split (Trim content cutset) '\n' = Split content '\n') := by
  have hlen := length_countPoint_add_countBlank (Split (Trim content cutset) '\n')
  refine ⟨hlen, ?_, fun h1 h2 => by rw [Trim_eq_self content h1 h2]⟩
  rw [← hlen]
  apply getCentroid_value
  intro l hl hne
  rcases h l hl with h1 | h1
  · exact absurd h1 hne
  · exact pointLine_length h1

/-- C14, an instance: the points (1, 2, 3) and (3, 4, 5) with one empty line
between them.  The sums 4, 6, 8 are divided by 3, not by 2: the centroid is
(4/3, 2, 8/3) in `float32`, not (2, 3, 4). -/
theorem getCentroid_interior_blank_lines_witness :
    ((Split (Trim "a b 1 2 3\n\na b 3 4 5".toList cutset) '\n').length =
        countPoint (Split (Trim "a b 1 2 3\n\na b 3 4 5".toList cutset) '\n') +
          countBlank (Split (Trim "a b 1 2 3\n\na b 3 4 5".toList cutset) '\n') ∧
      (getCentroid (.ok "a b 1 2 3\n\na b 3 4 5".toList)).2 =
        .ok (sumsOver
          ((Split (Trim "a b 1 2 3\n\na b 3 4 5".toList cutset) '\n').filter (fun l => !l.isEmpty))
          (countPoint (Split (Trim "a b 1 2 3\n\na b 3 4 5".toList cutset) '\n') +
            countBlank (Split (Trim "a b 1 2 3\n\na b 3 4 5".toList cutset) '\n'))) ∧
      ((∀ c, "a b 1 2 3\n\na b 3 4 5".toList.head? = some c → c ∉ cutset) →
        (∀ c, "a b 1 2 3\n\na b 3 4 5".toList.getLast? = some c → c ∉ cutset) →
        Split (Trim "a b 1 2 3\n\na b 3 4 5".toList cutset) '\n' =
          Split "a b 1 2 3\n\na b 3 4 5".toList '\n')) ∧
    Split "a b 1 2 3\n\na b 3 4 5".toList '\n' =
      ["a b 1 2 3".toList, [], "a b 3 4 5".toList] ∧
    countPoint (Split (Trim "a b 1 2 3\n\na b 3 4 5".toList cutset) '\n') = 2 ∧
    countBlank (Split (Trim "a b 1 2 3\n\na b 3 4 5".toList cutset) '\n') = 1 ∧
    (getCentroid (.ok "a b 1 2 3\n\na b 3 4 5".toList)).2 =
      .ok ⟨.fin false 11184811 (-23), Flt.ofNat binary32 2, .fin false 11184811 (-22)⟩ ∧
    sumsOver ((Split (Trim "a b 1 2 3\n\na b 3 4 5".toList cutset) '\n').filter
        (fun l => !l.isEmpty)) 2 =
      ⟨Flt.ofNat binary32 2, Flt.ofNat binary32 3, Flt.ofNat binary32 4⟩ :=
  ⟨getCentroid_interior_blank_lines "a b 1 2 3\n\na b 3 4 5".toList
      (by set_option maxRecDepth 100000 in decide),
    by decide, by decide, by decide, by set_option maxRecDepth 100000 in decide,
    by set_option maxRecDepth 100000 in decide⟩

/-! ## Lines with too few fields -/

theorem addLine_short (line : Str) (acc : Sums) (hne : line ≠ [])
    (hlen : (Split line ' ').length < 5) : (addLine line acc).2 = none := by
  unfold addLine
  rw [if_neg hne]
  match hargs : Split line ' ' with
  | [] => simp [POINTXI]
  | [_] => simp [POINTXI]
  | [_, _] => simp [POINTXI]
  | [_, _, a2] =>
    simp only [POINTXI, List.getElem?_cons_succ, List.getElem?_cons_zero]
    rfl
  | [_, _, a2, a3] =>
    simp only [POINTXI, List.getElem?_cons_succ, List.getElem?_cons_zero]
    rfl
  | _ :: _ :: _ :: _ :: _ :: _ =>
    rw [hargs] at hlen
    simp only [List.length_cons] at hlen
    omega

theorem sumLines_none_iff (lines : List Str) (acc : Sums) :
    (sumLines lines acc).2 = none ↔
      ∃ l ∈ lines, l ≠ [] ∧ (Split l ' ').length < 5 := by
  induction lines generalizing acc with
  | nil => simp [sumLines]
  | cons l rest ih =>
    by_cases hl : l = []
    · subst hl
      simp [sumLines, addLine_nil, ih acc]
    · by_cases hlen : 5 ≤ (Split l ' ').length
      · have hv := addLine_value l acc hl hlen
        unfold sumLines
        match hal : addLine l acc with
        | (ev, none) => rw [hal] at hv; simp at hv
        | (ev, some acc1) =>
          simp only [ih acc1, List.mem_cons, exists_eq_or_imp]
          constructor
          · intro h; exact Or.inr h
          · rintro (⟨_, h⟩ | h)
            · omega
            · exact h
      · push_neg at hlen
        have hv := addLine_short l acc hl hlen
        unfold sumLines
        match hal : addLine l acc with
        | (ev, none) =>
          simp only [List.mem_cons, exists_eq_or_imp, true_iff]
          exact Or.inl ⟨hl, hlen⟩
        | (ev, some acc1) => rw [hal] at hv; simp at hv

theorem getCentroid_panic_iff (content : Str) :
    (getCentroid (.ok content)).2 = .stop .panic ↔
      ∃ l ∈ Split (Trim content cutset) '\n', l ≠ [] ∧ (Split l ' ').length < 5 := by
  rw [← sumLines_none_iff _ ⟨Flt.zero, Flt.zero, Flt.zero⟩]
  unfold getCentroid
  simp only [cutset]
  match hsl : sumLines (Split (Trim content " \n\r".toList) '\n') ⟨Flt.zero, Flt.zero, Flt.zero⟩ with
  | (ev, none) => simp
  | (ev, some acc) => simp

theorem identifiers_none_iff (fileName : Str) :
    identifiers fileName = none ↔ (tokens fileName).length < 4 := by
  unfold identifiers tokens
  match h : FieldsFunc fileName isNameDelim with
  | [] => simp
  | [_] => simp
  | [_, _] => simp
  | [_, _, _] => simp
  | _ :: _ :: _ :: _ :: _ => simp


/-! ## C15: the field indices of `getCentroid` -/

/-- C15: field-index safety of `getCentroid`.  The accesses `args[2]`,
`args[3]`, `args[4]` stay in range, and `getCentroid` returns a centroid, if
and only if every non-empty line of the trimmed, newline-split content has at
least five fields when split on the single space character; a content with a
non-empty line of fewer than five such fields makes `getCentroid` stop with
the index-out-of-range panic, it is not recovered. -/
theorem getCentroid_index_safety (content : Str) :
    ((∃ c, (getCentroid (.ok content)).2 = .ok c) ↔
      ∀ l ∈ Split (Trim content cutset) '\n', l ≠ [] → 5 ≤ (Split l ' ').length) ∧
    ((∃ l ∈ Split (Trim content cutset) '\n', l ≠ [] ∧ (Split l ' ').length < 5) →
      (getCentroid (.ok content)).2 = .stop .panic) := by
  refine ⟨⟨?_, ?_⟩, (getCentroid_panic_iff content).mpr⟩
  · rintro ⟨c, hc⟩ l hl hne
    by_contra hlt
    push_neg at hlt
    rw [(getCentroid_panic_iff content).mpr ⟨l, hl, hne, hlt⟩] at hc
    simp at hc
  · intro h
    exact ⟨_, getCentroid_value content h⟩

/-- C15, an instance: the second line of this content has four fields. -/
theorem getCentroid_index_safety_witness :
    ((∃ c, (getCentroid (.ok "a b 1 2 3\na b 1 2".toList)).2 = .ok c) ↔
      ∀ l ∈ Split (Trim "a b 1 2 3\na b 1 2".toList cutset) '\n', l ≠ [] →
        5 ≤ (Split l ' ').length) ∧
    (getCentroid (.ok "a b 1 2 3\na b 1 2".toList)).2 = .stop .panic :=
  ⟨(getCentroid_index_safety "a b 1 2 3\na b 1 2".toList).1,
    (getCentroid_index_safety "a b 1 2 3\na b 1 2".toList).2
      ⟨"a b 1 2".toList, by decide, by decide, by decide⟩⟩

/-! ## C16: the token indices of the file name -/

theorem loadObjects_short (env : Env) (fileName : Str) (rest : List Str) (objects : List object)
    (h : (tokens fileName).length < 4) :
    loadObjects env (fileName :: rest) objects =
      ([.print (.tokens (tokens fileName))], .stop .panic) := by
  simp only [loadObjects, (identifiers_none_iff fileName).mpr h]
  rfl

theorem loadObjects_step (env : Env) (f : Str) (rest : List Str) (objects : List object) :
    loadObjects env (f :: rest) objects =
      match identifiers f with
      | none => ([.print (.tokens (tokens f))], .stop .panic)
      | some (label, obj) =>
        match getCentroid (env.readFile ("/tmp/objects/".toList ++ f)) with
        | (ev1, .stop a) => ([.print (.tokens (tokens f))] ++ ev1, .stop a)
        | (ev1, .ok c) =>
          ([.print (.tokens (tokens f))] ++ ev1 ++
              (loadObjects env rest (objects ++ [⟨label, obj, c⟩])).1,
            (loadObjects env rest (objects ++ [⟨label, obj, c⟩])).2) := by
  rw [loadObjects]
  rfl

theorem loadObjects_append (env : Env) (pre rest : List Str) (objects loaded : List object)
    (ev : List Event) (h : loadObjects env pre objects = (ev, .ok loaded)) :
    loadObjects env (pre ++ rest) objects =
      (ev ++ (loadObjects env rest loaded).1, (loadObjects env rest loaded).2) := by
  induction pre generalizing objects ev with
  | nil =>
    simp only [loadObjects, Prod.mk.injEq, Res.ok.injEq] at h
    obtain ⟨h1, h2⟩ := h
    subst h1; subst h2
    simp
  | cons f pre ih =>
    rw [List.cons_append, loadObjects_step]
    rw [loadObjects_step] at h
    cases hid : identifiers f with
    | none => simp [hid] at h
    | some ids =>
      obtain ⟨label, obj⟩ := ids
      simp only [hid] at h ⊢
      generalize getCentroid (env.readFile ("/tmp/objects/".toList ++ f)) = gc at h ⊢
      obtain ⟨ev1, r⟩ := gc
      cases r with
      | stop a => simp at h
      | ok c =>
        simp only at h ⊢
        generalize hl : loadObjects env pre (objects ++ [⟨label, obj, c⟩]) = lo at h
        obtain ⟨ev2, r2⟩ := lo
        simp only [Prod.mk.injEq] at h
        obtain ⟨h1, h2⟩ := h
        subst h1; subst h2
        rw [ih _ _ hl]
        simp [List.append_assoc]

/-- C16: token-index safety of the file name parsing.  The accesses
`name[1]` and `name[3]` stay in range if and only if the file name yields at
least four non-empty tokens when split on `_`, `.` and space; a directory
entry whose name has fewer than four tokens makes `main` stop with the
index-out-of-range panic when the file loop reaches it (the entries before it
having been loaded), it is neither skipped nor given identifiers of zero. -/
theorem identifiers_index_safety (fileName : Str) :
    ((∃ ids, identifiers fileName = some ids) ↔ 4 ≤ (tokens fileName).length) ∧
    ((tokens fileName).length < 4 →
      identifiers fileName = none ∧
      ∀ (fz : Fusion) (pre rest : List Str) (readFile : Str → Except Str Str)
        (openFile : Except Str Unit) (writeFails : Nat → Bool) (ev : List Event)
        (loaded : List object),
        loadObjects ⟨.ok (pre ++ fileName :: rest), readFile, openFile, writeFails⟩ pre [] =
          (ev, .ok loaded) →
        main fz ⟨.ok (pre ++ fileName :: rest), readFile, openFile, writeFails⟩ =
          (ev ++ [.print (.tokens (tokens fileName))], some .panic)) := by
  refine ⟨⟨?_, ?_⟩, ?_⟩
  · rintro ⟨ids, hids⟩
    by_contra hlt
    push_neg at hlt
    rw [(identifiers_none_iff fileName).mpr hlt] at hids
    simp at hids
  · intro h
    cases hid : identifiers fileName with
    | none => rw [identifiers_none_iff] at hid; omega
    | some ids => exact ⟨ids, rfl⟩
  · intro h
    refine ⟨(identifiers_none_iff fileName).mpr h, ?_⟩
    intro fz pre rest readFile openFile writeFails ev loaded hload
    simp only [main, loadObjects_append _ pre (fileName :: rest) [] loaded ev hload,
      loadObjects_short _ fileName rest loaded h, List.nil_append]

/-- C16, the instance of the claim: `foo.txt` has two tokens, and `main`
panics on it as the first directory entry. -/
theorem identifiers_index_safety_witness :
    tokens "foo.txt".toList = ["foo".toList, "txt".toList] ∧
    identifiers "foo.txt".toList = none ∧
    ∀ (fz : Fusion) (pre rest : List Str) (readFile : Str → Except Str Str)
      (openFile : Except Str Unit) (writeFails : Nat → Bool) (ev : List Event)
      (loaded : List object),
      loadObjects ⟨.ok (pre ++ "foo.txt".toList :: rest), readFile, openFile, writeFails⟩ pre [] =
        (ev, .ok loaded) →
      main fz ⟨.ok (pre ++ "foo.txt".toList :: rest), readFile, openFile, writeFails⟩ =
        (ev ++ [.print (.tokens (tokens "foo.txt".toList))], some .panic) :=
  ⟨by decide, (identifiers_index_safety "foo.txt".toList).2 (by decide)⟩

end MeasureDistances
